import Mathlib

/-! # The migration runner `scripts/migrate.js`

A shallow embedding of the runner and the properties of its migration
sequencing, version tracking, environment naming, alias promotion and
clean-up of old environments.

Conventions of the embedding.

* A JavaScript string is the list of its UTF-16 code units (`JSString`), so
  that `<` on strings, `indexOf`, `replace` and the regular expression see the
  same units the engine sees.
* The calls of step 5 to the content-management platform (`getEntries`,
  `update`, `publish`, `createEntry`) are embedded by what they do when they
  succeed.  The failures that are embedded are the two `throw new Error` of the
  script itself, the `TypeError` of reading a property of `undefined`, a
  failing `runMigration` (answered by an oracle indexed by the call number),
  and, in step 6, a rejected `getEnvironmentAlias`, `update`,
  `getEnvironments` or `env.delete()` (answered by `Answers`), which the
  `catch` of lines 293-295 only logs.
* The model starts where the target environment exists (lines 62-138 of the
  script create it and extend the API keys; they touch no alias, no entry and
  delete nothing), so the listing of the environments of a real run contains
  the environment with the id `ENVIRONMENT_ID`.
-/

namespace Migrate

/-! ## Strings -/

/-- A JavaScript string, as its sequence of UTF-16 code units. -/
abbrev JSString := List Nat

/-- Code units of a string literal (used for literals of the Basic Multilingual Plane). -/
def lit (s : String) : JSString := s.data.map Char.toNat

/-- The relation `x < y` on strings: code unit by code unit, a proper prefix is smaller. -/
def strLt : JSString → JSString → Bool
  | [], [] => false
  | [], _ :: _ => true
  | _ :: _, [] => false
  | a :: x, b :: y => decide (a < b) || (decide (a = b) && strLt x y)

/-- The default comparison of `Array.prototype.sort()` on strings. -/
def sortCompare (x y : JSString) : Int :=
  if strLt x y then -1 else if strLt y x then 1 else 0

/-- `Array.prototype.sort(comparefn)`: a stable sort; an element goes before the
first element it does not compare greater than. -/
def sortWith {α : Type} (comparefn : α → α → Int) (xs : List α) : List α :=
  List.insertionSort (fun a b => comparefn a b ≤ 0) xs

/-- `String.prototype.replace(pattern, replacement)` with a string pattern:
only the first occurrence is replaced. -/
def replaceFirst (pattern replacement : JSString) : JSString → JSString
  | [] => if pattern = [] then replacement else []
  | c :: s =>
    if pattern.isPrefixOf (c :: s) then replacement ++ (c :: s).drop pattern.length
    else c :: replaceFirst pattern replacement s

/-- `String.prototype.replace(/c/g, d)` for a one-unit pattern `c` and a one-unit
replacement `d`: every occurrence is replaced. -/
def replaceAll (c d : Nat) (s : JSString) : JSString :=
  s.map (fun u => if u = c then d else u)

/-- `Array.prototype.indexOf` (strict equality, which on strings is equality of
the code units): the first index, or `-1`. -/
def indexOf (xs : List JSString) (v : JSString) : Int :=
  match xs with
  | [] => -1
  | x :: rest =>
    if x = v then 0
    else
      let i := indexOf rest v
      if i = -1 then -1 else i + 1

/-- `Array.prototype.slice(start)` for the starts the script uses (`start ≥ -1`;
a negative start counts from the end). -/
def slice {α : Type} (xs : List α) (start : Int) : List α :=
  if 0 ≤ start then xs.drop start.toNat
  else xs.drop (xs.length - (-start).toNat)

/-! ## Regular expressions (enough of them for `/^\d+?.+\.js$/`) -/

/-- Regular expressions over code units. -/
inductive Regex where
  | none : Regex
  | eps : Regex
  | cls : (Nat → Bool) → Regex
  | seq : Regex → Regex → Regex
  | alt : Regex → Regex → Regex
  | star : Regex → Regex

namespace Regex

/-- Does the expression match the empty string? -/
def nullable : Regex → Bool
  | none => false
  | eps => true
  | cls _ => false
  | seq r q => nullable r && nullable q
  | alt r q => nullable r || nullable q
  | star _ => true

/-- The derivative of an expression by one code unit. -/
def deriv : Regex → Nat → Regex
  | none, _ => none
  | eps, _ => none
  | cls p, a => if p a then eps else none
  | seq r q, a => if nullable r then alt (seq (deriv r a) q) (deriv q a) else seq (deriv r a) q
  | alt r q, a => alt (deriv r a) (deriv q a)
  | star r, a => seq (deriv r a) (star r)

/-- Does the expression match the whole input? -/
def fullMatch : Regex → JSString → Bool
  | r, [] => nullable r
  | r, a :: s => fullMatch (deriv r a) s

/-- `r+` (the lazy `r+?` matches the same inputs when only `test` is asked). -/
def plus (r : Regex) : Regex := seq r (star r)

/-- A single given code unit. -/
def unit (c : Nat) : Regex := cls (fun u => u == c)

end Regex

/-- The class `\d` without the `u` flag: `0`-`9`. -/
def isDigit (u : Nat) : Bool := decide (48 ≤ u) && decide (u ≤ 57)

/-- Line terminators: LF, CR, LS, PS. -/
def isLineTerminator (u : Nat) : Bool :=
  u == 0x0A || u == 0x0D || u == 0x2028 || u == 0x2029

/-- The class `.` without the `s` flag: any unit but a line terminator. -/
def isDot (u : Nat) : Bool := !isLineTerminator u

/-- The pattern `/^\d+?.+\.js$/`; with both anchors and no `m` flag it has to
match the whole name. -/
def migrationPattern : Regex :=
  .seq (.plus (.cls isDigit))
    (.seq (.plus (.cls isDot))
      (.seq (.unit 46) (.seq (.unit 106) (.unit 115))))

/-- The filter of line 151: `/^\d+?.+\.js$/.test(file)`. -/
def migrationFilter (file : JSString) : Bool := Regex.fullMatch migrationPattern file

/-! ## Utility functions (lines 8-10) -/

/-- Port of `getVersionOfFile`: `file.replace(".js", "").replace(/_/g, ".")`. -/
def getVersionOfFile (file : JSString) : JSString :=
  replaceAll 95 46 (replaceFirst (lit ".js") [] file)

/-- Port of `getFileOfVersion`: `version.replace(/\./g, "_") + ".js"`. -/
def getFileOfVersion (version : JSString) : JSString :=
  replaceAll 46 95 version ++ lit ".js"

/-- Lines 150-152: the directory listing, filtered and mapped to versions. -/
def availableMigrations (files : List JSString) : List JSString :=
  (files.filter migrationFilter).map getVersionOfFile


/-! ## Dates (the built-in `Date`, in UTC) and `getStringDate` (lines 12-24) -/

/-- Two decimal digits. -/
def twoDigits (n : Nat) : JSString := [48 + n / 10 % 10, 48 + n % 10]

/-- Three decimal digits. -/
def threeDigits (n : Nat) : JSString := [48 + n / 100 % 10, 48 + n / 10 % 10, 48 + n % 10]

/-- Four decimal digits. -/
def fourDigits (n : Nat) : JSString :=
  [48 + n / 1000 % 10, 48 + n / 100 % 10, 48 + n / 10 % 10, 48 + n % 10]

/-- Six decimal digits. -/
def sixDigits (n : Nat) : JSString :=
  [48 + n / 100000 % 10, 48 + n / 10000 % 10] ++ fourDigits n

/-- Number of the day of a time value (milliseconds since the epoch): `Day(t)`. -/
def dayOf (t : Int) : Int := t / 86400000

/-- The year, month (1-12) and day of the month (1-31) of a day number, in the
proleptic Gregorian calendar; days are counted in 400-year eras that start on
1 March. -/
def civilFromDays (days : Int) : Int × Nat × Nat :=
  let z := days + 719468
  let era := z / 146097
  let doe := z - era * 146097
  let yoe := (doe - doe / 1460 + doe / 36524 - doe / 146096) / 365
  let doy := doe - (365 * yoe + yoe / 4 - yoe / 100)
  let mp := (5 * doy + 2) / 153
  let d := doy - (153 * mp + 2) / 5 + 1
  let m := if mp < 10 then mp + 3 else mp - 9
  (if m ≤ 2 then yoe + era * 400 + 1 else yoe + era * 400, m.toNat, d.toNat)

/-- Value of `YearFromTime(t)`. -/
def yearFromTime (t : Int) : Int := (civilFromDays (dayOf t)).1

/-- Value of `MonthFromTime(t) + 1`, the month as `toISOString` prints it. -/
def monthFromTime (t : Int) : Nat := (civilFromDays (dayOf t)).2.1

/-- Value of `DateFromTime(t)`. -/
def dateFromTime (t : Int) : Nat := (civilFromDays (dayOf t)).2.2

/-- Value of `d.getUTCHours()`. -/
def getUTCHours (t : Int) : Nat := (t / 3600000 % 24).toNat

/-- Value of `d.getUTCMinutes()`. -/
def getUTCMinutes (t : Int) : Nat := (t / 60000 % 60).toNat

/-- Value of `d.getUTCSeconds()`. -/
def getUTCSeconds (t : Int) : Nat := (t / 1000 % 60).toNat

/-- Value of `d.getUTCMilliseconds()`. -/
def getUTCMilliseconds (t : Int) : Nat := (t % 1000).toNat

/-- The year as `toISOString` prints it: four digits for the years 0 to 9999,
otherwise a sign and six digits. -/
def yearString (y : Int) : JSString :=
  if 0 ≤ y ∧ y ≤ 9999 then fourDigits y.toNat
  else if 0 ≤ y then lit "+" ++ sixDigits y.toNat
  else lit "-" ++ sixDigits (-y).toNat

/-- The built-in `Date.prototype.toISOString`: `YYYY-MM-DDTHH:mm:ss.sssZ`. -/
def toISOString (t : Int) : JSString :=
  yearString (yearFromTime t) ++ lit "-" ++ twoDigits (monthFromTime t) ++ lit "-" ++
    twoDigits (dateFromTime t) ++ lit "T" ++ twoDigits (getUTCHours t) ++ lit ":" ++
    twoDigits (getUTCMinutes t) ++ lit ":" ++ twoDigits (getUTCSeconds t) ++ lit "." ++
    threeDigits (getUTCMilliseconds t) ++ lit "Z"

/-- Decimal form of a non-negative integer Number. -/
def numberToString (n : Nat) : JSString := lit (toString n)

/-- What `pad` returns: a string for `n < 10`, the number itself otherwise. -/
inductive Padded where
  | str : JSString → Padded
  | num : Nat → Padded

/-- The inner function `pad`: `n < 10 ? "0" + n : n`. -/
def pad (n : Nat) : Padded :=
  if n < 10 then .str (lit "0" ++ numberToString n) else .num n

/-- The operator `+` with a string on the left: the right operand is converted to a string. -/
def plusString (s : JSString) : Padded → JSString
  | .str t => s ++ t
  | .num n => s ++ numberToString n

/-- Port of `getStringDate`, at the time value `now` that `new Date()` holds:
`d.toISOString().substring(0, 10) + "-" + pad(d.getUTCHours()) + pad(d.getUTCMinutes())`,
the `+` associating to the left. -/
def getStringDate (now : Int) : JSString :=
  plusString (plusString ((toISOString now).take 10 ++ lit "-") (pad (getUTCHours now)))
    (pad (getUTCMinutes now))

/-- The test of lines 47-52 and 259-264. -/
def isAliasBranch (ENVIRONMENT_INPUT : JSString) : Bool :=
  ENVIRONMENT_INPUT == lit "master" || ENVIRONMENT_INPUT == lit "main" ||
    ENVIRONMENT_INPUT == lit "staging" || ENVIRONMENT_INPUT == lit "qa"

/-- Lines 43-59: the id of the target environment. -/
def ENVIRONMENT_ID (ENVIRONMENT_INPUT : JSString) (now : Int) : JSString :=
  if isAliasBranch ENVIRONMENT_INPUT then ENVIRONMENT_INPUT ++ lit "-" ++ getStringDate now
  else ENVIRONMENT_INPUT


/-! ## The platform state the runner reads and writes -/

/-- An entry of content type `versionTracking`. -/
structure Entry where
  /-- Field `sys.id`. -/
  id : Nat
  /-- The object `fields.version` (locale code to value); `none` when the entry
  has no such field. -/
  version : Option (List (JSString × JSString))
  /-- Is the current state of the entry the published one? -/
  published : Bool
deriving DecidableEq

/-- An environment of the space. -/
structure Environment where
  /-- Field `sys.id`. -/
  id : JSString
  /-- Field `name`. -/
  name : JSString
  /-- The time value of `new Date(sys.createdAt)`; the platform sends a valid
  date, so the comparison function of line 280 never yields `NaN`. -/
  createdAt : Int
deriving DecidableEq

/-- What the runner sees of the space. -/
structure Space where
  /-- The entries of content type `versionTracking` in the target environment,
  as `getEntries` lists them. -/
  entries : List Entry
  /-- The environments of the space, as `getEnvironments` lists them. -/
  environments : List Environment
  /-- The environment each alias points at; `none` for a name that is no alias
  of the space. -/
  aliases : JSString → Option JSString

/-- How the platform answers the calls of step 6; a call answered `false` is
rejected, which throws into the `catch` of lines 293-295. -/
structure Answers where
  /-- Does `space.getEnvironmentAlias(...)` return, for an alias that exists? -/
  getEnvironmentAlias : Bool
  /-- Does `environmentAlias.update()` return? -/
  aliasUpdate : Bool
  /-- Does `space.getEnvironments()` return? -/
  getEnvironments : Bool
  /-- Does the call number `k` of `env.delete()` return? -/
  delete : Nat → Bool

/-- The platform that rejects no call of step 6. -/
def allAnswered : Answers :=
  { getEnvironmentAlias := true, aliasUpdate := true, getEnvironments := true,
    delete := fun _ => true }

/-- What the run does to the outside, in order. -/
inductive Event where
  | warn (message : JSString)
  | runMigration (filePath : JSString)
  | migrationSucceeded (migrationFile : JSString)
  | entryUpdated (id : Nat) (value : JSString)
  | entryCreated (id : Nat) (value : JSString)
  | entryPublished (id : Nat)
  | aliasUpdated (aliasName target : JSString)
  | environmentDeleted (id : JSString)
  | errorLogged (message : JSString)
deriving DecidableEq

/-- What a run can die of. -/
inductive RunError where
  | error (message : JSString)
  | typeError
  | migrationFailed (filePath : JSString)
deriving DecidableEq

/-- The state of a run: the space, the variable `storedVersionEntry`, and what was done so far. -/
structure RunState where
  space : Space
  storedVersionEntry : Option Entry
  log : List Event

/-- Append an event to the log. -/
def RunState.emit (st : RunState) (e : Event) : RunState := { st with log := st.log ++ [e] }

/-! ## Step 5: which migrations to run (lines 154-210) -/

/-- The body of the `try` of lines 159-167, given what `getEntries` returned. -/
def findStoredVersionEntry (versions : List Entry) : Except JSString (Option Entry) :=
  if versions.length > 1 then
    .error (lit "There should only be one entry of type 'versionTracking'")
  else if versions.length = 1 then .ok versions.head?
  else .ok none

/-- Lines 157-174: the `try` with its `catch`, which warns twice and goes on
with `storedVersionEntry` left undefined. -/
def lookupStoredVersionEntry (versions : List Entry) : Option Entry × List Event :=
  match findStoredVersionEntry versions with
  | .ok storedVersionEntry => (storedVersionEntry, [])
  | .error message =>
    (none,
      [.warn (lit "Could not find versionTracking entry or content type. Assuming initial state if intentional."),
       .warn message])

/-- Lines 176-181: `storedVersionEntry.fields.version[defaultLocale] || "0"`, or
`"0"` without an entry. -/
def currentVersionString (storedVersionEntry : Option Entry) (defaultLocale : JSString) :
    Except RunError JSString :=
  match storedVersionEntry with
  | none => .ok (lit "0")
  | some entry =>
    match entry.version with
    | none => .error .typeError
    | some byLocale =>
      match byLocale.lookup defaultLocale with
      | none => .ok (lit "0")
      | some value => if value = [] then .ok (lit "0") else .ok value

/-- The message of line 205. -/
def notMatchingMessage (currentVersionString : JSString) : JSString :=
  lit "Version " ++ currentVersionString ++ lit " is not matching with any known migration"

/-- Lines 193-209: sort, find the current version, keep what comes after it. -/
def migrationsToRun (availableMigrations : List JSString) (currentVersionString : JSString) :
    Except RunError (List JSString) :=
  let sorted := sortWith sortCompare availableMigrations
  let currentMigrationIndex : Int :=
    if currentVersionString ≠ lit "0" then indexOf sorted currentVersionString else -1
  if currentMigrationIndex = -1 ∧ currentVersionString ≠ lit "0" then
    .error (.error (notMatchingMessage currentVersionString))
  else .ok (slice sorted (currentMigrationIndex + 1))

/-! ## The migration loop and the version tracking (lines 220-254) -/

/-- The assignment `byLocale[locale] = value`. -/
def setLocale (locale value : JSString) (byLocale : List (JSString × JSString)) :
    List (JSString × JSString) :=
  (locale, value) :: byLocale.filter (fun kv => kv.1 ≠ locale)

/-- Replace the stored entry that has the id of `entry`. -/
def putEntry (entry : Entry) (entries : List Entry) : List Entry :=
  entries.map (fun x => if x.id = entry.id then entry else x)

/-- An id no entry of the list has. -/
def freshId (entries : List Entry) : Nat := (entries.map (·.id)).foldr max 0 + 1

/-- The call `entry.update()`: the platform takes the fields of the entry; the
new state is not the published one. -/
def RunState.update (st : RunState) (entry : Entry) (value : JSString) : RunState × Entry :=
  let updated := { entry with published := false }
  ({ st with space := { st.space with entries := putEntry updated st.space.entries },
             log := st.log ++ [.entryUpdated entry.id value] }, updated)

/-- The call `entry.publish()`. -/
def RunState.publish (st : RunState) (entry : Entry) : RunState × Entry :=
  let published := { entry with published := true }
  ({ st with space := { st.space with entries := putEntry published st.space.entries },
             log := st.log ++ [.entryPublished entry.id] }, published)

/-- The call `environment.createEntry("versionTracking", ...)` of lines 243-249. -/
def RunState.createEntry (st : RunState) (defaultLocale value : JSString) : RunState × Entry :=
  let created : Entry :=
    { id := freshId st.space.entries, version := some [(defaultLocale, value)], published := false }
  ({ st with space := { st.space with entries := st.space.entries ++ [created] },
             log := st.log ++ [.entryCreated created.id value] }, created)

/-- Lines 234-252: record `migrationFile` as the applied version. -/
def trackVersion (defaultLocale migrationFile : JSString) (st : RunState) :
    Except RunError RunState :=
  match st.storedVersionEntry with
  | some entry =>
    match entry.version with
    | none => .error .typeError
    | some byLocale =>
      let assigned := { entry with version := some (setLocale defaultLocale migrationFile byLocale) }
      let (st1, updated) := st.update assigned migrationFile
      let (st2, published) := st1.publish updated
      .ok { st2 with storedVersionEntry := some published }
  | none =>
    let (st1, created) := st.createEntry defaultLocale migrationFile
    let (st2, published) := st1.publish created
    .ok { st2 with storedVersionEntry := some published }

/-- Lines 220-254: the loop over `migrationsToRun`; `runMigration k` tells whether
the call number `k` of `runMigration` in this run returns (or throws). The
second component is the error that ended the loop early, if any. -/
def migrationLoop (runMigration : Nat → Bool) (defaultLocale : JSString) :
    List JSString → Nat → RunState → RunState × Option RunError
  | [], _, st => (st, none)
  | migrationFile :: rest, k, st =>
    let filePath := getFileOfVersion migrationFile
    let st1 := st.emit (.runMigration filePath)
    if runMigration k then
      match trackVersion defaultLocale migrationFile (st1.emit (.migrationSucceeded migrationFile)) with
      | .ok st2 => migrationLoop runMigration defaultLocale rest (k + 1) st2
      | .error err => (st1.emit (.migrationSucceeded migrationFile), some err)
    else (st1, some (.migrationFailed filePath))

/-! ## Step 6: alias and clean-up (lines 256-298) -/

/-- The constant `KEEP_COUNT`. -/
def KEEP_COUNT : Int := 3

/-- The method `name.startsWith(start)`. -/
def startsWith (name start : JSString) : Bool := start.isPrefixOf name

/-- Lines 278-280: the environments named `<ENVIRONMENT_INPUT>-...`, newest first. -/
def matchingEnvs (ENVIRONMENT_INPUT : JSString) (allEnvs : List Environment) : List Environment :=
  sortWith (fun a b => b.createdAt - a.createdAt)
    (allEnvs.filter (fun e => startsWith e.name (ENVIRONMENT_INPUT ++ lit "-")))

/-- Line 284: `matchingEnvs.slice(KEEP_COUNT)`. -/
def envsToDelete (ENVIRONMENT_INPUT : JSString) (allEnvs : List Environment) : List Environment :=
  slice (matchingEnvs ENVIRONMENT_INPUT allEnvs) KEEP_COUNT

/-- The call `env.delete()`. -/
def RunState.deleteEnvironment (st : RunState) (env : Environment) : RunState :=
  { st with space := { st.space with environments := st.space.environments.filter (fun e => e.id ≠ env.id) },
            log := st.log ++ [.environmentDeleted env.id] }

/-- The text the `catch` of lines 293-295 puts before the error it logs. -/
def cleanupErrorMessage : JSString := lit "Error updating alias or cleaning up:"

/-- Lines 286-291: the loop that deletes; `delete k` tells whether the call
number `k` of `env.delete()` returns. A rejected call throws out of the loop
into the `catch` of lines 293-295, which logs the error. -/
def deleteLoop (delete : Nat → Bool) (envId : JSString) :
    List Environment → Nat → RunState → RunState
  | [], _, st => st
  | env :: rest, k, st =>
    if env.id ≠ envId then
      if delete k then deleteLoop delete envId rest (k + 1) (st.deleteEnvironment env)
      else st.emit (.errorLogged cleanupErrorMessage)
    else deleteLoop delete envId rest k st

/-- Lines 259-298, with the `try` of line 266 and its `catch` of lines 293-295:
a rejected call is logged and ends the step, and the run goes on to
"All done!". -/
def promote (answers : Answers) (ENVIRONMENT_INPUT envId : JSString) (st : RunState) : RunState :=
  if isAliasBranch ENVIRONMENT_INPUT then
    if answers.getEnvironmentAlias && (st.space.aliases ENVIRONMENT_INPUT).isSome then
      if answers.aliasUpdate then
        let st1 : RunState :=
          { st with
            space := { st.space with
              aliases := Function.update st.space.aliases ENVIRONMENT_INPUT (some envId) },
            log := st.log ++ [.aliasUpdated ENVIRONMENT_INPUT envId] }
        if answers.getEnvironments then
          deleteLoop answers.delete envId (envsToDelete ENVIRONMENT_INPUT st1.space.environments) 0 st1
        else st1.emit (.errorLogged cleanupErrorMessage)
      else st.emit (.errorLogged cleanupErrorMessage)
    else st.emit (.errorLogged cleanupErrorMessage)
  else st

/-! ## The run -/

/-- How a run ends. -/
structure Result where
  /-- The value `none` for "All done!", or the error that went to `process.exit(1)`. -/
  exit : Option RunError
  /-- The space after the run. -/
  space : Space
  /-- What the run did. -/
  log : List Event

/-- The run, from the computation of `ENVIRONMENT_ID` on: `now` is the time value
of `new Date()`, `files` the listing of the migrations directory,
`defaultLocale` the code of the default locale, `runMigration` and `answers`
the answers of the migration tool and of the platform. -/
def run (ENVIRONMENT_INPUT : JSString) (now : Int) (files : List JSString)
    (defaultLocale : JSString) (runMigration : Nat → Bool) (answers : Answers) (space : Space) : Result :=
  let envId := ENVIRONMENT_ID ENVIRONMENT_INPUT now
  let available := availableMigrations files
  let found := lookupStoredVersionEntry space.entries
  let st0 : RunState := { space := space, storedVersionEntry := found.1, log := found.2 }
  match currentVersionString found.1 defaultLocale with
  | .error err => { exit := some err, space := st0.space, log := st0.log }
  | .ok version =>
    match migrationsToRun available version with
    | .error err => { exit := some err, space := st0.space, log := st0.log }
    | .ok selected =>
      match migrationLoop runMigration defaultLocale selected 0 st0 with
      | (st1, some err) => { exit := some err, space := st1.space, log := st1.log }
      | (st1, none) =>
        let st2 := promote answers ENVIRONMENT_INPUT envId st1
        { exit := none, space := st2.space, log := st2.log }

/-- The stored version a run would read from a space. -/
def storedVersion (space : Space) (defaultLocale : JSString) : Except RunError JSString :=
  currentVersionString (lookupStoredVersionEntry space.entries).1 defaultLocale

/-! ## Predicates on events and the specification of the clean-up -/

/-- Is the event an alias update or the deletion of an environment? -/
def Event.isPromotion : Event → Bool
  | .aliasUpdated _ _ => true
  | .environmentDeleted _ => true
  | _ => false

/-- The ids of the environments the log says were deleted, in order. -/
def deletedIds (log : List Event) : List JSString :=
  log.filterMap (fun e => match e with
    | .environmentDeleted id => some id
    | _ => none)

/-- Is the event a call of `runMigration`? -/
def Event.isRunMigration : Event → Bool
  | .runMigration _ => true
  | _ => false

/-- In the ranking of the clean-up, does `q` come before `p`? The newer one comes
first, and of two environments created at the same time the one listed first.
The pairs are (position in the listing, environment). -/
def ranksBefore (q p : Nat × Environment) : Bool :=
  decide (p.2.createdAt < q.2.createdAt) ||
    (decide (q.2.createdAt = p.2.createdAt) && decide (q.1 < p.1))

/-- The environments to delete, in the words of the specification: those whose
name starts with `<ENVIRONMENT_INPUT>-`, that have at least 3 such environments
ranked before them (so are not among the 3 most recently created), and whose id
is not `ENVIRONMENT_ID`. -/
def staleEnvironments (ENVIRONMENT_INPUT envId : JSString) (allEnvs : List Environment) :
    List Environment :=
  let matching := (allEnvs.filter (fun e => startsWith e.name (ENVIRONMENT_INPUT ++ lit "-"))).enum
  (matching.filter (fun p =>
    decide (3 ≤ (matching.filter (fun q => ranksBefore q p)).length) &&
      decide (p.2.id ≠ envId))).map Prod.snd

/-- The space holds exactly the entry the runner holds, if any: the state of a
run whose query returned at most one entry. -/
def Tracked (st : RunState) : Prop :=
  (st.storedVersionEntry = none ∧ st.space.entries = []) ∨
  ∃ entry byLocale, st.storedVersionEntry = some entry ∧ st.space.entries = [entry] ∧
    entry.version = some byLocale

/-- The one `versionTracking` entry of the space is the one the runner holds, it
is published, and its version for the locale is `version`. -/
def TracksVersion (defaultLocale version : JSString) (st : RunState) : Prop :=
  ∃ entry byLocale, st.storedVersionEntry = some entry ∧ st.space.entries = [entry] ∧
    entry.version = some byLocale ∧ byLocale.lookup defaultLocale = some version ∧
    entry.published = true

/-! ## Spaces for the concrete runs -/

/-- A space as a run on `main` at the time value 1793924745123, or on
`feature-x`, finds it after step 2: one `versionTracking` entry at version
`01-setup`; the target environments `main-2026-11-06-0025` and `feature-x`,
five older environments of `main` and one other; the alias `main`. -/
def sampleSpace : Space :=
  { entries := [{ id := 7, version := some [(lit "en-US", lit "01-setup")], published := true }],
    environments :=
      [ { id := lit "main-a", name := lit "main-a", createdAt := 10 },
        { id := lit "main-b", name := lit "main-b", createdAt := 20 },
        { id := lit "main-c", name := lit "main-c", createdAt := 30 },
        { id := lit "main-d", name := lit "main-d", createdAt := 40 },
        { id := lit "other", name := lit "other", createdAt := 5 },
        { id := lit "main-e", name := lit "main-e", createdAt := 10 },
        { id := lit "feature-x", name := lit "feature-x", createdAt := 50 },
        { id := lit "main-2026-11-06-0025", name := lit "main-2026-11-06-0025",
          createdAt := 1793924700000 } ],
    aliases := fun a => if a = lit "main" then some (lit "main-c") else none }

/-- A space with two `versionTracking` entries, both at version `01-setup`, as
a run on `feature-x` finds it. -/
def twoEntrySpace : Space :=
  { entries :=
      [ { id := 1, version := some [(lit "en-US", lit "01-setup")], published := true },
        { id := 2, version := some [(lit "en-US", lit "01-setup")], published := true } ],
    environments := [{ id := lit "feature-x", name := lit "feature-x", createdAt := 50 }],
    aliases := fun _ => none }

/-- The listing of a migrations directory with three migrations and one other file. -/
def sampleFiles : List JSString :=
  [lit "02-create-content-model.js", lit "README.md", lit "01-setup.js", lit "03_x.js"]

/-! ## Facts about the regular-expression matcher -/

namespace Regex

theorem fullMatch_none (s : JSString) : fullMatch none s = false := by
  induction s with
  | nil => rfl
  | cons a s ih => simpa [fullMatch, deriv] using ih

theorem fullMatch_eps (s : JSString) : fullMatch eps s = true ↔ s = [] := by
  cases s with
  | nil => simp [fullMatch, nullable]
  | cons a s => simp [fullMatch, deriv, fullMatch_none]

theorem fullMatch_alt (r q : Regex) (s : JSString) :
    fullMatch (alt r q) s = (fullMatch r s || fullMatch q s) := by
  induction s generalizing r q with
  | nil => simp [fullMatch, nullable]
  | cons a s ih => simp [fullMatch, deriv, ih]

theorem fullMatch_seq (r q : Regex) (s : JSString) :
    fullMatch (seq r q) s = true ↔
      ∃ t u, s = t ++ u ∧ fullMatch r t = true ∧ fullMatch q u = true := by
  induction s generalizing r with
  | nil =>
    simp only [fullMatch, nullable, Bool.and_eq_true]
    constructor
    · rintro ⟨h1, h2⟩
      exact ⟨[], [], rfl, h1, h2⟩
    · rintro ⟨t, u, h, h1, h2⟩
      obtain ⟨ht, hu⟩ := List.append_eq_nil.1 h.symm
      subst ht hu
      exact ⟨h1, h2⟩
  | cons a s ih =>
    constructor
    · intro h
      simp only [fullMatch, deriv] at h
      by_cases hn : nullable r = true
      · rw [if_pos hn, fullMatch_alt, Bool.or_eq_true] at h
        rcases h with h | h
        · obtain ⟨t, u, rfl, h1, h2⟩ := (ih _).1 h
          exact ⟨a :: t, u, rfl, h1, h2⟩
        · exact ⟨[], a :: s, rfl, hn, h⟩
      · rw [if_neg hn] at h
        obtain ⟨t, u, rfl, h1, h2⟩ := (ih _).1 h
        exact ⟨a :: t, u, rfl, h1, h2⟩
    · rintro ⟨t, u, h, h1, h2⟩
      simp only [fullMatch, deriv]
      cases t with
      | nil =>
        have hn : nullable r = true := h1
        rw [if_pos hn, fullMatch_alt, Bool.or_eq_true]
        right
        simp only [List.nil_append] at h
        subst h
        exact h2
      | cons b t =>
        simp only [List.cons_append, List.cons.injEq] at h
        obtain ⟨rfl, rfl⟩ := h
        have h3 : fullMatch (seq (deriv r a) q) (t ++ u) = true := (ih _).2 ⟨t, u, rfl, h1, h2⟩
        by_cases hn : nullable r = true
        · rw [if_pos hn, fullMatch_alt, h3, Bool.true_or]
        · rw [if_neg hn, h3]

theorem fullMatch_cls (p : Nat → Bool) (s : JSString) :
    fullMatch (cls p) s = true ↔ ∃ a, s = [a] ∧ p a = true := by
  cases s with
  | nil => simp [fullMatch, nullable]
  | cons a s =>
    simp only [fullMatch, deriv]
    by_cases hp : p a = true
    · simp only [hp, if_true, fullMatch_eps, List.cons.injEq]
      constructor
      · rintro rfl
        exact ⟨a, ⟨rfl, rfl⟩, hp⟩
      · rintro ⟨b, ⟨-, h⟩, -⟩
        exact h
    · simp only [hp, Bool.false_eq_true, if_false, fullMatch_none]
      simp only [List.cons.injEq, false_iff, not_exists, not_and]
      rintro b ⟨rfl, -⟩
      exact hp

theorem fullMatch_star_cls (p : Nat → Bool) (s : JSString) :
    fullMatch (star (cls p)) s = true ↔ ∀ a ∈ s, p a = true := by
  induction s with
  | nil => simp [fullMatch, nullable]
  | cons a s ih =>
    simp only [fullMatch, deriv, List.mem_cons, forall_eq_or_imp]
    rw [fullMatch_seq]
    by_cases hp : p a = true
    · simp only [hp, if_true, true_and]
      constructor
      · rintro ⟨t, u, rfl, h1, h2⟩
        rw [fullMatch_eps] at h1
        subst h1
        exact ih.1 h2
      · intro h
        exact ⟨[], s, rfl, (fullMatch_eps _).2 rfl, ih.2 h⟩
    · simp [hp, fullMatch_none]

theorem fullMatch_plus_cls (p : Nat → Bool) (s : JSString) :
    fullMatch (plus (cls p)) s = true ↔ s ≠ [] ∧ ∀ a ∈ s, p a = true := by
  unfold plus
  rw [fullMatch_seq]
  constructor
  · rintro ⟨t, u, rfl, h1, h2⟩
    obtain ⟨a, rfl, ha⟩ := (fullMatch_cls _ _).1 h1
    refine ⟨by simp, ?_⟩
    intro b hb
    simp only [List.singleton_append, List.mem_cons] at hb
    rcases hb with rfl | hb
    · exact ha
    · exact (fullMatch_star_cls p u).1 h2 b hb
  · rintro ⟨hne, h⟩
    cases s with
    | nil => exact absurd rfl hne
    | cons a s =>
      refine ⟨[a], s, rfl, (fullMatch_cls _ _).2 ⟨a, rfl, h a (List.mem_cons_self _ _)⟩, ?_⟩
      exact (fullMatch_star_cls p s).2 (fun b hb => h b (List.mem_cons_of_mem _ hb))

theorem fullMatch_unit (c : Nat) (s : JSString) : fullMatch (unit c) s = true ↔ s = [c] := by
  unfold unit
  rw [fullMatch_cls]
  constructor
  · rintro ⟨a, rfl, ha⟩
    simp only [beq_iff_eq] at ha
    rw [ha]
  · rintro rfl
    exact ⟨c, rfl, by simp⟩

end Regex

theorem lit_dotJs : lit ".js" = [46, 106, 115] := rfl

theorem isDigit_not_lineTerminator (u : Nat) (h : isDigit u = true) : isLineTerminator u = false := by
  simp only [isDigit, Bool.and_eq_true, decide_eq_true_eq] at h
  simp only [isLineTerminator, Bool.or_eq_false_iff, beq_eq_false_iff_ne]
  omega

/-- The shape of the names the pattern accepts. -/
theorem migrationFilter_iff_split (file : JSString) :
    migrationFilter file = true ↔
      ∃ digits rest, file = digits ++ (rest ++ lit ".js") ∧
        (digits ≠ [] ∧ ∀ a ∈ digits, isDigit a = true) ∧
        (rest ≠ [] ∧ ∀ a ∈ rest, isDot a = true) := by
  unfold migrationFilter migrationPattern
  rw [Regex.fullMatch_seq]
  constructor
  · rintro ⟨t, u, rfl, h1, h2⟩
    rw [Regex.fullMatch_seq] at h2
    obtain ⟨v, w, rfl, h3, h4⟩ := h2
    rw [Regex.fullMatch_seq] at h4
    obtain ⟨x, y, rfl, h5, h6⟩ := h4
    rw [Regex.fullMatch_seq] at h6
    obtain ⟨y1, y2, rfl, h7, h8⟩ := h6
    rw [Regex.fullMatch_unit] at h5 h7 h8
    subst h5 h7 h8
    exact ⟨t, v, rfl, (Regex.fullMatch_plus_cls _ _).1 h1, (Regex.fullMatch_plus_cls _ _).1 h3⟩
  · rintro ⟨t, v, rfl, h1, h3⟩
    refine ⟨t, v ++ lit ".js", rfl, (Regex.fullMatch_plus_cls _ _).2 h1, ?_⟩
    rw [Regex.fullMatch_seq]
    refine ⟨v, lit ".js", rfl, (Regex.fullMatch_plus_cls _ _).2 h3, ?_⟩
    rfl

/-- C9. The filter `/^\d+?.+\.js$/` accepts a name exactly when the name is a
first unit that is an ASCII digit, then at least one more unit, then the final
`.js`, with no line terminator before that final `.js`; `01-setup.js` and
`02-create-content-model.js` are accepted. -/
theorem migrationFilter_accepts_iff :
    (∀ file : JSString, migrationFilter file = true ↔
      ∃ d middle, file = d :: middle ++ lit ".js" ∧ isDigit d = true ∧ middle ≠ [] ∧
        ∀ u ∈ d :: middle, isLineTerminator u = false) ∧
    migrationFilter (lit "01-setup.js") = true ∧
    migrationFilter (lit "02-create-content-model.js") = true := by
  refine ⟨?_, by decide, by decide⟩
  intro file
  rw [migrationFilter_iff_split]
  constructor
  · rintro ⟨digits, rest, rfl, ⟨hne, hd⟩, ⟨hre, hr⟩⟩
    cases digits with
    | nil => exact absurd rfl hne
    | cons d ds =>
      refine ⟨d, ds ++ rest, by simp, hd d (List.mem_cons_self _ _), by simp [hre], ?_⟩
      intro u hu
      simp only [List.mem_cons, List.mem_append] at hu
      rcases hu with rfl | hu | hu
      · exact isDigit_not_lineTerminator _ (hd _ (List.mem_cons_self _ _))
      · exact isDigit_not_lineTerminator _ (hd _ (List.mem_cons_of_mem _ hu))
      · have := hr u hu
        simpa [isDot] using this
  · rintro ⟨d, middle, rfl, hd, hne, hl⟩
    refine ⟨[d], middle, by simp, ⟨by simp, by simpa using hd⟩, hne, ?_⟩
    intro a ha
    simp [isDot, hl a (List.mem_cons_of_mem _ ha)]

/-! ## File names and versions -/

theorem replaceFirst_dotJs_of_no_dot (stem : JSString) (h : 46 ∉ stem) :
    replaceFirst (lit ".js") [] (stem ++ lit ".js") = stem := by
  induction stem with
  | nil => rfl
  | cons c s ih =>
    have hc : c ≠ 46 := fun hc => h (hc ▸ List.mem_cons_self _ _)
    have hs : 46 ∉ s := fun hs => h (List.mem_cons_of_mem _ hs)
    have hpre : (lit ".js").isPrefixOf (c :: (s ++ lit ".js")) = false := by
      rw [lit_dotJs, List.isPrefixOf_cons₂]
      have : ((46 : Nat) == c) = false := by
        rw [beq_eq_false_iff_ne]
        exact fun h => hc h.symm
      rw [this, Bool.false_and]
    change (if (lit ".js").isPrefixOf (c :: (s ++ lit ".js")) = true then _
      else c :: replaceFirst (lit ".js") [] (s ++ lit ".js")) = c :: s
    rw [hpre, ih hs]
    simp

theorem replaceFirst_length (pattern s : JSString) :
    s.length ≤ (replaceFirst pattern [] s).length + pattern.length := by
  induction s with
  | nil => simp
  | cons c s ih =>
    simp only [replaceFirst]
    split
    · simp only [List.nil_append, List.length_drop, List.length_cons]
      omega
    · simp only [List.length_cons]
      omega

theorem not_dot_mem_replaceAll (s : JSString) : 46 ∉ replaceAll 46 95 s := by
  intro h
  simp only [replaceAll, List.mem_map] at h
  obtain ⟨u, -, hu⟩ := h
  split at hu <;> omega

theorem replaceAll_replaceAll_of_no_dot (s : JSString) (h : 46 ∉ s) :
    replaceAll 46 95 (replaceAll 95 46 s) = s := by
  induction s with
  | nil => rfl
  | cons c s ih =>
    have hc : c ≠ 46 := fun hc => h (hc ▸ List.mem_cons_self _ _)
    have hs : 46 ∉ s := fun hs => h (List.mem_cons_of_mem _ hs)
    have ih2 := ih hs
    simp only [replaceAll, List.map_cons, List.map_map, List.cons.injEq] at ih2 ⊢
    refine ⟨?_, ih2⟩
    by_cases h95 : c = 95
    · simp [h95]
    · simp [h95, hc]

theorem getVersionOfFile_length (file : JSString) :
    file.length ≤ (getVersionOfFile file).length + 3 := by
  have := replaceFirst_length (lit ".js") file
  simpa [getVersionOfFile, replaceAll, lit_dotJs] using this

theorem migrationFilter_length (file : JSString) (h : migrationFilter file = true) :
    5 ≤ file.length := by
  obtain ⟨digits, rest, rfl, ⟨hd, -⟩, ⟨hr, -⟩⟩ := (migrationFilter_iff_split file).1 h
  have h1 : 0 < digits.length := List.length_pos.2 hd
  have h2 : 0 < rest.length := List.length_pos.2 hr
  simp only [List.length_append, lit_dotJs, List.length_cons, List.length_nil]
  omega

/-- No accepted file name gives the version `"0"`. -/
theorem zero_not_mem_availableMigrations (files : List JSString) :
    lit "0" ∉ availableMigrations files := by
  intro h
  simp only [availableMigrations, List.mem_map, List.mem_filter] at h
  obtain ⟨file, ⟨-, hf⟩, hv⟩ := h
  have h1 := migrationFilter_length file hf
  have h2 := getVersionOfFile_length file
  rw [hv] at h2
  have h3 : (lit "0").length = 1 := rfl
  omega

/-- C8. For a file name the filter accepts, mapping the name to its version
and the version back to a file name gives the name again exactly when the name
has no `.` other than the one of its final `.js`. -/
theorem getFileOfVersion_getVersionOfFile_iff (file : JSString)
    (h : migrationFilter file = true) :
    getFileOfVersion (getVersionOfFile file) = file ↔
      ∃ stem, file = stem ++ lit ".js" ∧ 46 ∉ stem := by
  constructor
  · intro hrt
    exact ⟨replaceAll 46 95 (getVersionOfFile file), hrt.symm, not_dot_mem_replaceAll _⟩
  · rintro ⟨stem, rfl, hs⟩
    unfold getFileOfVersion getVersionOfFile
    rw [replaceFirst_dotJs_of_no_dot stem hs, replaceAll_replaceAll_of_no_dot stem hs]

theorem getFileOfVersion_getVersionOfFile_iff_witness :
    (getFileOfVersion (getVersionOfFile (lit "01_setup.js")) = lit "01_setup.js" ↔
      ∃ stem, lit "01_setup.js" = stem ++ lit ".js" ∧ 46 ∉ stem) ∧
    (getFileOfVersion (getVersionOfFile (lit "1.0.js")) = lit "1.0.js" ↔
      ∃ stem, lit "1.0.js" = stem ++ lit ".js" ∧ 46 ∉ stem) ∧
    getFileOfVersion (getVersionOfFile (lit "01_setup.js")) = lit "01_setup.js" ∧
    getFileOfVersion (getVersionOfFile (lit "1.0.js")) = lit "1_0.js" :=
  ⟨getFileOfVersion_getVersionOfFile_iff (lit "01_setup.js") (by decide),
   getFileOfVersion_getVersionOfFile_iff (lit "1.0.js") (by decide), by decide, by decide⟩

/-! ## The order on strings and the sorted list -/

theorem strLt_irrefl (x : JSString) : strLt x x = false := by
  induction x with
  | nil => rfl
  | cons a x ih => simp [strLt, ih]

theorem strLt_asymm (x y : JSString) (h : strLt x y = true) : strLt y x = false := by
  induction x generalizing y with
  | nil => cases y <;> simp_all [strLt]
  | cons a x ih =>
    cases y with
    | nil => simp [strLt] at h
    | cons b y =>
      simp only [strLt, Bool.or_eq_true, Bool.and_eq_true, decide_eq_true_eq] at h
      simp only [strLt, Bool.or_eq_false_iff, Bool.and_eq_false_imp, decide_eq_false_iff_not,
        decide_eq_true_eq]
      rcases h with h | ⟨rfl, h⟩
      · exact ⟨by omega, fun hba => by omega⟩
      · exact ⟨by omega, fun _ => ih y h⟩

theorem strLt_trans (x y z : JSString) (h1 : strLt x y = true) (h2 : strLt y z = true) :
    strLt x z = true := by
  induction x generalizing y z with
  | nil =>
    cases y with
    | nil => simp [strLt] at h1
    | cons b y =>
      cases z with
      | nil => simp [strLt] at h2
      | cons c z => rfl
  | cons a x ih =>
    cases y with
    | nil => simp [strLt] at h1
    | cons b y =>
      cases z with
      | nil => simp [strLt] at h2
      | cons c z =>
        simp only [strLt, Bool.or_eq_true, Bool.and_eq_true, decide_eq_true_eq] at h1 h2 ⊢
        rcases h1 with h1 | ⟨rfl, h1⟩
        · rcases h2 with h2 | ⟨rfl, h2⟩
          · left; omega
          · left; exact h1
        · rcases h2 with h2 | ⟨rfl, h2⟩
          · left; exact h2
          · right; exact ⟨rfl, ih y z h1 h2⟩

theorem strLt_connex (x y : JSString) (h1 : strLt x y = false) (h2 : strLt y x = false) :
    x = y := by
  induction x generalizing y with
  | nil =>
    cases y with
    | nil => rfl
    | cons b y => simp [strLt] at h1
  | cons a x ih =>
    cases y with
    | nil => simp [strLt] at h2
    | cons b y =>
      simp only [strLt, Bool.or_eq_false_iff, Bool.and_eq_false_imp, decide_eq_false_iff_not,
        decide_eq_true_eq] at h1 h2
      have hab : a = b := by omega
      subst hab
      rw [ih y (h1.2 rfl) (h2.2 rfl)]

theorem sortCompare_le_iff (x y : JSString) : sortCompare x y ≤ 0 ↔ strLt y x = false := by
  unfold sortCompare
  by_cases h1 : strLt x y = true
  · simp [h1, strLt_asymm x y h1]
  · by_cases h2 : strLt y x = true
    · simp [h1, h2]
    · simp [h1, h2]

theorem sortCompare_total : IsTotal JSString (fun a b => sortCompare a b ≤ 0) where
  total a b := by
    simp only [sortCompare_le_iff]
    by_cases h : strLt b a = true
    · right; exact strLt_asymm b a h
    · left; simpa using h

theorem sortCompare_trans : IsTrans JSString (fun a b => sortCompare a b ≤ 0) where
  trans a b c := by
    simp only [sortCompare_le_iff]
    intro h1 h2
    by_contra h3
    have h3 : strLt c a = true := by simpa using h3
    by_cases hbc : strLt b c = true
    · have := strLt_trans b c a hbc h3
      rw [this] at h1
      exact absurd h1 (by simp)
    · have hbc : strLt b c = false := by simpa using hbc
      have : b = c := strLt_connex b c hbc h2
      subst this
      rw [h3] at h1
      exact absurd h1 (by simp)

theorem sortWith_sortCompare_sorted (xs : List JSString) :
    (sortWith sortCompare xs).Pairwise (fun a b => strLt b a = false) := by
  haveI := sortCompare_total
  haveI := sortCompare_trans
  have h := List.sorted_insertionSort (fun a b : JSString => sortCompare a b ≤ 0) xs
  unfold List.Sorted at h
  exact h.imp (fun {a b} hab => (sortCompare_le_iff a b).1 hab)

theorem sortWith_perm {α : Type} (comparefn : α → α → Int) (xs : List α) :
    (sortWith comparefn xs).Perm xs :=
  List.perm_insertionSort _ xs

/-! ## `indexOf` and `slice` -/

theorem indexOf_ge (xs : List JSString) (v : JSString) : -1 ≤ indexOf xs v := by
  induction xs with
  | nil => simp [indexOf]
  | cons x xs ih =>
    simp only [indexOf]
    split
    · omega
    · split <;> omega

theorem indexOf_eq_neg_one_iff (xs : List JSString) (v : JSString) :
    indexOf xs v = -1 ↔ v ∉ xs := by
  induction xs with
  | nil => simp [indexOf]
  | cons x xs ih =>
    have hge := indexOf_ge xs v
    simp only [indexOf, List.mem_cons, not_or]
    by_cases hx : x = v
    · simp [hx]
    · rw [if_neg hx]
      constructor
      · intro h
        refine ⟨fun h' => hx h'.symm, ih.1 ?_⟩
        by_contra hne
        rw [if_neg hne] at h
        omega
      · rintro ⟨-, h⟩
        rw [if_pos (ih.2 h)]

theorem indexOf_split (xs : List JSString) (v : JSString) (h : v ∈ xs) :
    ∃ before after, xs = before ++ v :: after ∧ v ∉ before ∧
      indexOf xs v = (before.length : Int) := by
  induction xs with
  | nil => simp at h
  | cons x xs ih =>
    by_cases hx : x = v
    · subst hx
      exact ⟨[], xs, rfl, by simp, by simp [indexOf]⟩
    · have hv : v ∈ xs := by
        rcases List.mem_cons.1 h with h | h
        · exact absurd h.symm hx
        · exact h
      obtain ⟨before, after, hxs, hnot, hidx⟩ := ih hv
      refine ⟨x :: before, after, by rw [hxs]; rfl, ?_, ?_⟩
      · simp only [List.mem_cons, not_or]
        exact ⟨fun h' => hx h'.symm, hnot⟩
      · have hne : indexOf xs v ≠ -1 := fun h' => (indexOf_eq_neg_one_iff xs v).1 h' hv
        simp only [indexOf, if_neg hx, if_neg hne, hidx, List.length_cons]
        push_cast
        rfl

theorem slice_zero {α : Type} (xs : List α) : slice xs 0 = xs := by
  simp [slice]

theorem slice_after {α : Type} (before after : List α) (v : α) :
    slice (before ++ v :: after) ((before.length : Int) + 1) = after := by
  have h : (0 : Int) ≤ (before.length : Int) + 1 := by omega
  have h2 : ((before.length : Int) + 1).toNat = before.length + 1 := by omega
  simp only [slice, if_pos h, h2]
  rw [List.drop_append_eq_append_drop]
  simp

/-! ## Which migrations are selected -/

theorem migrationsToRun_zero (available : List JSString) :
    migrationsToRun available (lit "0") = .ok (sortWith sortCompare available) := by
  simp [migrationsToRun, slice_zero]

theorem migrationsToRun_of_mem (available : List JSString) (v : JSString)
    (h0 : v ≠ lit "0") (h : v ∈ available) :
    ∃ before after, sortWith sortCompare available = before ++ v :: after ∧ v ∉ before ∧
      migrationsToRun available v = .ok after := by
  have hs : v ∈ sortWith sortCompare available := (sortWith_perm _ _).mem_iff.2 h
  obtain ⟨before, after, hsplit, hnot, hidx⟩ := indexOf_split _ v hs
  refine ⟨before, after, hsplit, hnot, ?_⟩
  have hne : ¬ ((before.length : Int) = -1 ∧ v ≠ lit "0") := by omega
  simp only [migrationsToRun, if_pos h0, hidx, if_neg hne]
  rw [hsplit, slice_after]

theorem migrationsToRun_of_not_mem (available : List JSString) (v : JSString)
    (h0 : v ≠ lit "0") (h : v ∉ available) :
    migrationsToRun available v = .error (.error (notMatchingMessage v)) := by
  have hs : v ∉ sortWith sortCompare available := fun hm => h ((sortWith_perm _ _).mem_iff.1 hm)
  have hidx := (indexOf_eq_neg_one_iff _ v).2 hs
  simp [migrationsToRun, h0, hidx]

theorem migrationsToRun_error (available : List JSString) (v : JSString) (err : RunError)
    (h : migrationsToRun available v = .error err) :
    v ≠ lit "0" ∧ v ∉ available ∧ err = .error (notMatchingMessage v) := by
  by_cases h0 : v = lit "0"
  · subst h0
    rw [migrationsToRun_zero] at h
    cases h
  · by_cases hm : v ∈ available
    · obtain ⟨before, after, -, -, hok⟩ := migrationsToRun_of_mem available v h0 hm
      rw [hok] at h
      cases h
    · rw [migrationsToRun_of_not_mem available v h0 hm] at h
      cases h
      exact ⟨h0, hm, rfl⟩

/-- The selection of migrations, for a stored version that can be read. The
stored version is `"0"` when there is no `versionTracking` entry, or when the
version object of the entry has no value or an empty value for the default
locale. For the versions of a directory listing and a stored version `v`: the
sorted list is the listing's versions in ascending order of `<` on strings; for
`v = "0"` all of it is selected; for `v` among the versions exactly what comes
after the first occurrence of `v` in the sorted list is selected, in that
order. -/
theorem migrationsToRun_selection (files : List JSString) (v : JSString) :
    (∀ (environments : List Environment) (aliases : JSString → Option JSString)
        (defaultLocale : JSString),
      storedVersion { entries := [], environments := environments, aliases := aliases }
        defaultLocale = .ok (lit "0")) ∧
    (∀ (space : Space) (entry : Entry) (byLocale : List (JSString × JSString))
        (defaultLocale : JSString),
      space.entries = [entry] → entry.version = some byLocale →
      (byLocale.lookup defaultLocale = none ∨ byLocale.lookup defaultLocale = some []) →
      storedVersion space defaultLocale = .ok (lit "0")) ∧
    (∀ (space : Space) (entry : Entry) (byLocale : List (JSString × JSString))
        (defaultLocale value : JSString),
      space.entries = [entry] → entry.version = some byLocale →
      byLocale.lookup defaultLocale = some value → value ≠ [] →
      storedVersion space defaultLocale = .ok value) ∧
    (sortWith sortCompare (availableMigrations files)).Pairwise (fun a b => strLt b a = false) ∧
    (sortWith sortCompare (availableMigrations files)).Perm (availableMigrations files) ∧
    (v = lit "0" →
      migrationsToRun (availableMigrations files) v =
        .ok (sortWith sortCompare (availableMigrations files))) ∧
    (v ∈ availableMigrations files →
      ∃ before after,
        sortWith sortCompare (availableMigrations files) = before ++ v :: after ∧
        v ∉ before ∧
        migrationsToRun (availableMigrations files) v = .ok after) := by
  refine ⟨?_, ?_, ?_, sortWith_sortCompare_sorted _, sortWith_perm _ _, ?_, ?_⟩
  · intro environments aliases defaultLocale
    rfl
  · intro space entry byLocale defaultLocale he hv hl
    simp only [storedVersion, he, lookupStoredVersionEntry, findStoredVersionEntry,
      List.length_singleton, lt_irrefl, if_false, if_true, List.head?_cons, currentVersionString, hv]
    rcases hl with hl | hl <;> simp [hl]
  · intro space entry byLocale defaultLocale value he hv hl hne
    simp only [storedVersion, he, lookupStoredVersionEntry, findStoredVersionEntry,
      List.length_singleton, lt_irrefl, if_false, if_true, List.head?_cons, currentVersionString, hv,
      hl, if_neg hne]
  · rintro rfl
    exact migrationsToRun_zero _
  · intro hm
    have h0 : v ≠ lit "0" := fun h => zero_not_mem_availableMigrations files (h ▸ hm)
    exact migrationsToRun_of_mem _ v h0 hm

theorem migrationsToRun_selection_witness :
    lit "01-setup" ∈ availableMigrations [lit "02-model.js", lit "notes.txt", lit "01-setup.js", lit "03-x.js"] ∧
    migrationsToRun (availableMigrations [lit "02-model.js", lit "notes.txt", lit "01-setup.js", lit "03-x.js"])
      (lit "01-setup") = .ok [lit "02-model", lit "03-x"] ∧
    ∃ before after,
      sortWith sortCompare (availableMigrations [lit "02-model.js", lit "notes.txt", lit "01-setup.js", lit "03-x.js"])
        = before ++ lit "01-setup" :: after ∧
      lit "01-setup" ∉ before ∧
      migrationsToRun (availableMigrations [lit "02-model.js", lit "notes.txt", lit "01-setup.js", lit "03-x.js"])
        (lit "01-setup") = .ok after :=
  ⟨by decide, rfl,
    (migrationsToRun_selection [lit "02-model.js", lit "notes.txt", lit "01-setup.js", lit "03-x.js"]
      (lit "01-setup")).2.2.2.2.2.2 (by decide)⟩

/-- C1 (the code at an entry without a version object). For a
`versionTracking` entry that has no `version` field the stored version is not
taken as `"0"`: reading `fields.version[defaultLocale]` at line 178 throws a
`TypeError`, the run ends with it and no migration is run, while from `"0"`
all three migrations would be selected. -/
theorem run_entry_without_version_object :
    storedVersion
      { sampleSpace with entries := [{ id := 7, version := none, published := false }] }
      (lit "en-US") = .error .typeError ∧
    (run (lit "feature-x") 0 sampleFiles (lit "en-US") (fun _ => true) allAnswered
      { sampleSpace with entries := [{ id := 7, version := none, published := false }] }).exit =
      some .typeError ∧
    (run (lit "feature-x") 0 sampleFiles (lit "en-US") (fun _ => true) allAnswered
      { sampleSpace with entries := [{ id := 7, version := none, published := false }] }).log =
      [] ∧
    migrationsToRun (availableMigrations sampleFiles) (lit "0") =
      .ok [lit "01-setup", lit "02-create-content-model", lit "03.x"] := by
  refine ⟨rfl, by decide, by decide, rfl⟩

/-! ## What the loop and the promotion do to the log and the space -/

theorem currentVersionString_error (stored : Option Entry) (defaultLocale : JSString)
    (err : RunError) (h : currentVersionString stored defaultLocale = .error err) :
    err = .typeError := by
  unfold currentVersionString at h
  split at h
  · cases h
  · split at h
    · cases h; rfl
    · split at h
      · cases h
      · split at h <;> cases h

theorem trackVersion_error (defaultLocale migrationFile : JSString) (st : RunState)
    (err : RunError) (h : trackVersion defaultLocale migrationFile st = .error err) :
    err = .typeError := by
  unfold trackVersion at h
  split at h
  · split at h
    · cases h; rfl
    · cases h
  · cases h

theorem trackVersion_frame (defaultLocale migrationFile : JSString) (st st2 : RunState)
    (h : trackVersion defaultLocale migrationFile st = .ok st2) :
    (∃ added, st2.log = st.log ++ added ∧
      ∀ e ∈ added, e.isPromotion = false ∧ e.isRunMigration = false) ∧
    st2.space.aliases = st.space.aliases ∧
    st2.space.environments = st.space.environments := by
  cases hs : st.storedVersionEntry with
  | some entry =>
    cases hv : entry.version with
    | none => simp [trackVersion, hs, hv] at h
    | some byLocale =>
      simp only [trackVersion, hs, hv, RunState.update, RunState.publish, Except.ok.injEq] at h
      subst h
      refine ⟨⟨[.entryUpdated entry.id migrationFile, .entryPublished entry.id], by simp, ?_⟩,
        rfl, rfl⟩
      intro e he
      simp only [List.mem_cons, List.mem_singleton, List.not_mem_nil, or_false] at he
      rcases he with rfl | rfl <;> exact ⟨rfl, rfl⟩
  | none =>
    simp only [trackVersion, hs, RunState.createEntry, RunState.publish, Except.ok.injEq] at h
    subst h
    refine ⟨⟨[.entryCreated (freshId st.space.entries) migrationFile,
      .entryPublished (freshId st.space.entries)], by simp, ?_⟩, rfl, rfl⟩
    intro e he
    simp only [List.mem_cons, List.mem_singleton, List.not_mem_nil, or_false] at he
    rcases he with rfl | rfl <;> exact ⟨rfl, rfl⟩

theorem migrationLoop_frame (runMigration : Nat → Bool) (defaultLocale : JSString)
    (selected : List JSString) (k : Nat) (st : RunState) :
    (∃ added, (migrationLoop runMigration defaultLocale selected k st).1.log = st.log ++ added ∧
      (∀ e ∈ added, e.isPromotion = false) ∧
      ((migrationLoop runMigration defaultLocale selected k st).2 = none →
        ∀ m ∈ selected, Event.migrationSucceeded m ∈ added) ∧
      (selected = [] → added = [])) ∧
    (migrationLoop runMigration defaultLocale selected k st).1.space.aliases = st.space.aliases ∧
    (migrationLoop runMigration defaultLocale selected k st).1.space.environments =
      st.space.environments ∧
    (∀ message, (migrationLoop runMigration defaultLocale selected k st).2 ≠
      some (.error message)) ∧
    ((migrationLoop runMigration defaultLocale selected k st).2 = none →
      ∀ i, i < selected.length → runMigration (k + i) = true) := by
  induction selected generalizing k st with
  | nil =>
    refine ⟨⟨[], by simp [migrationLoop], by simp, by simp, fun _ => rfl⟩, rfl, rfl, ?_, ?_⟩
    · intro message
      simp [migrationLoop]
    · intro _ i hi
      simp at hi
  | cons m rest ih =>
    simp only [migrationLoop]
    by_cases hk : runMigration k = true
    · rw [if_pos hk]
      cases htv : trackVersion defaultLocale m
          ((st.emit (.runMigration (getFileOfVersion m))).emit (.migrationSucceeded m)) with
      | error err =>
        have herr := trackVersion_error _ _ _ _ htv
        subst herr
        refine ⟨⟨[.runMigration (getFileOfVersion m), .migrationSucceeded m],
          by simp [RunState.emit], ?_, by simp, by simp⟩, rfl, rfl, by simp, by simp⟩
        intro e he
        simp only [List.mem_cons, List.mem_singleton, List.not_mem_nil, or_false] at he
        rcases he with rfl | rfl <;> rfl
      | ok st2 =>
        obtain ⟨⟨added1, hlog1, hadd1⟩, hal1, henv1⟩ := trackVersion_frame _ _ _ _ htv
        obtain ⟨⟨added2, hlog2, hprom2, hsucc2, -⟩, hal2, henv2, herr2, horacle2⟩ := ih (k + 1) st2
        refine ⟨⟨[.runMigration (getFileOfVersion m), .migrationSucceeded m] ++ added1 ++ added2,
          ?_, ?_, ?_, by simp⟩, ?_, ?_, herr2, ?_⟩
        · simp only [hlog2, hlog1, RunState.emit, List.append_assoc, List.cons_append,
            List.nil_append]
        · intro e he
          simp only [List.append_assoc, List.cons_append, List.nil_append, List.mem_cons,
            List.mem_append] at he
          rcases he with rfl | rfl | he | he
          · rfl
          · rfl
          · exact (hadd1 e he).1
          · exact hprom2 e he
        · intro hnone x hx
          rcases List.mem_cons.1 hx with rfl | hx
          · simp
          · exact List.mem_append_right _ (hsucc2 hnone x hx)
        · rw [hal2, hal1]; rfl
        · rw [henv2, henv1]; rfl
        · intro hnone i hi
          cases i with
          | zero => simpa using hk
          | succ j =>
            have := horacle2 hnone j (by simpa using hi)
            rw [show k + (j + 1) = k + 1 + j by omega]
            exact this
    · rw [if_neg hk]
      refine ⟨⟨[.runMigration (getFileOfVersion m)], by simp [RunState.emit], ?_, by simp, by simp⟩,
        rfl, rfl, by simp, by simp⟩
      intro e he
      simp only [List.mem_singleton] at he
      subst he
      rfl

theorem deletedIds_append (l₁ l₂ : List Event) :
    deletedIds (l₁ ++ l₂) = deletedIds l₁ ++ deletedIds l₂ := by
  simp [deletedIds, List.filterMap_append]

theorem deletedIds_map (envs : List Environment) :
    deletedIds (envs.map (fun env => Event.environmentDeleted env.id)) = envs.map (·.id) := by
  induction envs with
  | nil => rfl
  | cons env rest ih =>
    simp only [deletedIds, List.map_cons, List.filterMap_cons] at ih ⊢
    rw [ih]

/-- The loop that deletes: it deletes a leading part of the environments to
delete that are not the current one, all of them when no call is rejected; a
rejected call is logged and ends the loop. -/
theorem deleteLoop_spec (delete : Nat → Bool) (envId : JSString) (toDelete : List Environment)
    (k : Nat) (st : RunState) :
    ∃ deleted remaining : List Environment,
      toDelete.filter (fun env => decide (env.id ≠ envId)) = deleted ++ remaining ∧
      ((∀ i, delete i = true) → remaining = []) ∧
      (deleteLoop delete envId toDelete k st).log =
        st.log ++ (deleted.map (fun env => Event.environmentDeleted env.id) ++
          (if remaining = [] then [] else [Event.errorLogged cleanupErrorMessage])) ∧
      (deleteLoop delete envId toDelete k st).space.environments =
        st.space.environments.filter (fun e => deleted.all (fun d => decide (e.id ≠ d.id))) ∧
      (deleteLoop delete envId toDelete k st).space.aliases = st.space.aliases ∧
      (deleteLoop delete envId toDelete k st).space.entries = st.space.entries := by
  induction toDelete generalizing k st with
  | nil => exact ⟨[], [], by simp, fun _ => rfl, by simp [deleteLoop], by simp [deleteLoop], rfl, rfl⟩
  | cons env rest ih =>
    simp only [deleteLoop]
    by_cases h : env.id ≠ envId
    · have hd : decide (env.id ≠ envId) = true := by simpa using h
      rw [if_pos h]
      by_cases hk : delete k = true
      · rw [if_pos hk]
        obtain ⟨deleted, remaining, hsplit, hall, hlog, henv, hali, hent⟩ :=
          ih (k + 1) (st.deleteEnvironment env)
        refine ⟨env :: deleted, remaining, ?_, hall, ?_, ?_, ?_, ?_⟩
        · rw [List.filter_cons, if_pos hd, hsplit]
          rfl
        · rw [hlog]
          simp [RunState.deleteEnvironment]
        · rw [henv]
          simp only [RunState.deleteEnvironment, List.filter_filter]
          congr 1
          funext e
          rw [List.all_cons, Bool.and_comm]
        · rw [hali]; rfl
        · rw [hent]; rfl
      · rw [if_neg hk]
        refine ⟨[], env :: rest.filter (fun env => decide (env.id ≠ envId)), ?_, ?_, ?_, ?_, rfl, rfl⟩
        · rw [List.filter_cons, if_pos hd]
          rfl
        · intro hall
          exact absurd (hall k) hk
        · simp [RunState.emit]
        · simp [RunState.emit]
    · have hd : decide (env.id ≠ envId) = false := by simpa using h
      rw [if_neg h]
      obtain ⟨deleted, remaining, hsplit, hall, hlog, henv, hali, hent⟩ := ih k st
      refine ⟨deleted, remaining, ?_, hall, hlog, henv, hali, hent⟩
      rw [List.filter_cons, hd]
      exact hsplit

theorem isAliasBranch_iff (input : JSString) :
    isAliasBranch input = true ↔
      input = lit "master" ∨ input = lit "main" ∨ input = lit "staging" ∨ input = lit "qa" := by
  simp [isAliasBranch, or_assoc]

theorem lookupStoredVersionEntry_log (versions : List Entry) :
    ∀ e ∈ (lookupStoredVersionEntry versions).2,
      e.isPromotion = false ∧ e.isRunMigration = false := by
  intro e he
  unfold lookupStoredVersionEntry at he
  split at he
  · simp at he
  · simp only [List.mem_cons, List.mem_singleton, List.not_mem_nil, or_false] at he
    rcases he with rfl | rfl <;> exact ⟨rfl, rfl⟩

/-- The four ways a run can go. -/
theorem run_cases (input : JSString) (now : Int) (files : List JSString)
    (defaultLocale : JSString) (runMigration : Nat → Bool) (answers : Answers) (space : Space) :
    (∃ err, storedVersion space defaultLocale = .error err ∧
      run input now files defaultLocale runMigration answers space =
        { exit := some err, space := space, log := (lookupStoredVersionEntry space.entries).2 }) ∨
    (∃ v err, storedVersion space defaultLocale = .ok v ∧
      migrationsToRun (availableMigrations files) v = .error err ∧
      run input now files defaultLocale runMigration answers space =
        { exit := some err, space := space, log := (lookupStoredVersionEntry space.entries).2 }) ∨
    (∃ v selected err, storedVersion space defaultLocale = .ok v ∧
      migrationsToRun (availableMigrations files) v = .ok selected ∧
      (migrationLoop runMigration defaultLocale selected 0
        { space := space, storedVersionEntry := (lookupStoredVersionEntry space.entries).1,
          log := (lookupStoredVersionEntry space.entries).2 }).2 = some err ∧
      run input now files defaultLocale runMigration answers space =
        { exit := some err,
          space := (migrationLoop runMigration defaultLocale selected 0
            { space := space, storedVersionEntry := (lookupStoredVersionEntry space.entries).1,
              log := (lookupStoredVersionEntry space.entries).2 }).1.space,
          log := (migrationLoop runMigration defaultLocale selected 0
            { space := space, storedVersionEntry := (lookupStoredVersionEntry space.entries).1,
              log := (lookupStoredVersionEntry space.entries).2 }).1.log }) ∨
    (∃ v selected, storedVersion space defaultLocale = .ok v ∧
      migrationsToRun (availableMigrations files) v = .ok selected ∧
      (migrationLoop runMigration defaultLocale selected 0
        { space := space, storedVersionEntry := (lookupStoredVersionEntry space.entries).1,
          log := (lookupStoredVersionEntry space.entries).2 }).2 = none ∧
      run input now files defaultLocale runMigration answers space =
        { exit := none,
          space := (promote answers input (ENVIRONMENT_ID input now)
            (migrationLoop runMigration defaultLocale selected 0
              { space := space, storedVersionEntry := (lookupStoredVersionEntry space.entries).1,
                log := (lookupStoredVersionEntry space.entries).2 }).1).space,
          log := (promote answers input (ENVIRONMENT_ID input now)
            (migrationLoop runMigration defaultLocale selected 0
              { space := space, storedVersionEntry := (lookupStoredVersionEntry space.entries).1,
                log := (lookupStoredVersionEntry space.entries).2 }).1).log }) := by
  simp only [storedVersion, run]
  cases hv : currentVersionString (lookupStoredVersionEntry space.entries).1 defaultLocale with
  | error err => exact Or.inl ⟨err, rfl, rfl⟩
  | ok v =>
    right
    cases hm : migrationsToRun (availableMigrations files) v with
    | error err => exact Or.inl ⟨v, err, rfl, hm, by simp only [hm]⟩
    | ok selected =>
      right
      cases hl : (migrationLoop runMigration defaultLocale selected 0
        { space := space, storedVersionEntry := (lookupStoredVersionEntry space.entries).1,
          log := (lookupStoredVersionEntry space.entries).2 }) with
      | mk st1 err =>
        cases err with
        | some err =>
          refine Or.inl ⟨v, selected, err, rfl, hm, ?_, ?_⟩
          · rw [hl]
          · simp only [hm, hl]
        | none =>
          refine Or.inr ⟨v, selected, rfl, hm, ?_, ?_⟩
          · rw [hl]
          · simp only [hm, hl]

theorem notMatchingMessage_injective (v w : JSString)
    (h : notMatchingMessage v = notMatchingMessage w) : v = w := by
  unfold notMatchingMessage at h
  rw [List.append_assoc, List.append_assoc] at h
  exact List.append_cancel_right (List.append_cancel_left h)

/-- A run ends with an `Error` of the script only for an unknown stored version. -/
theorem run_exit_error (input : JSString) (now : Int) (files : List JSString)
    (defaultLocale : JSString) (runMigration : Nat → Bool) (answers : Answers) (space : Space) (message : JSString)
    (hexit : (run input now files defaultLocale runMigration answers space).exit =
      some (.error message)) :
    ∃ v, storedVersion space defaultLocale = .ok v ∧ v ≠ lit "0" ∧
      v ∉ availableMigrations files ∧ message = notMatchingMessage v := by
  rcases run_cases input now files defaultLocale runMigration answers space with
    ⟨err, hv', hrun⟩ | ⟨v', err, hv', hsel', hrun⟩ | ⟨v', selected, err, hv', hsel', hloop, hrun⟩ |
    ⟨v', selected, hv', hsel', -, hrun⟩
  · rw [hrun] at hexit
    have := currentVersionString_error _ _ _ hv'
    subst this
    cases hexit
  · rw [hrun] at hexit
    obtain ⟨h0, hm, rfl⟩ := migrationsToRun_error _ _ _ hsel'
    simp only [Option.some.injEq, RunError.error.injEq] at hexit
    exact ⟨v', hv', h0, hm, hexit.symm⟩
  · rw [hrun] at hexit
    simp only [Option.some.injEq] at hexit
    subst hexit
    exact absurd hloop ((migrationLoop_frame _ _ _ _ _).2.2.2.1 _)
  · rw [hrun] at hexit
    cases hexit

/-- C2. When the stored version is neither `"0"` nor one of the available
versions, the run ends with the error `Version <v> is not matching with any
known migration`, no migration was run and the space (with its
`versionTracking` entry) is as it was; and a run ends with that error only
then. -/
theorem run_unknown_version (input : JSString) (now : Int) (files : List JSString)
    (defaultLocale : JSString) (runMigration : Nat → Bool) (answers : Answers) (space : Space) :
    (∀ v, storedVersion space defaultLocale = .ok v → v ≠ lit "0" →
      v ∉ availableMigrations files →
      (run input now files defaultLocale runMigration answers space).exit =
        some (.error (lit "Version " ++ v ++ lit " is not matching with any known migration")) ∧
      (∀ e ∈ (run input now files defaultLocale runMigration answers space).log,
        e.isRunMigration = false) ∧
      (run input now files defaultLocale runMigration answers space).space.entries = space.entries ∧
      (run input now files defaultLocale runMigration answers space).space.environments =
        space.environments ∧
      (run input now files defaultLocale runMigration answers space).space.aliases = space.aliases) ∧
    (∀ v, (run input now files defaultLocale runMigration answers space).exit =
        some (.error (lit "Version " ++ v ++ lit " is not matching with any known migration")) →
      storedVersion space defaultLocale = .ok v ∧ v ≠ lit "0" ∧
        v ∉ availableMigrations files) := by
  constructor
  · intro v hv h0 hm
    have hsel := migrationsToRun_of_not_mem (availableMigrations files) v h0 hm
    rcases run_cases input now files defaultLocale runMigration answers space with
      ⟨err, hv', -⟩ | ⟨v', err, hv', hsel', hrun⟩ | ⟨v', selected, err, hv', hsel', -, -⟩ |
      ⟨v', selected, hv', hsel', -, -⟩
    · rw [hv] at hv'; cases hv'
    · rw [hv] at hv'
      cases hv'
      rw [hsel] at hsel'
      cases hsel'
      rw [hrun]
      exact ⟨rfl, fun e he => (lookupStoredVersionEntry_log _ e he).2, rfl, rfl, rfl⟩
    · rw [hv] at hv'; cases hv'
      rw [hsel] at hsel'; cases hsel'
    · rw [hv] at hv'; cases hv'
      rw [hsel] at hsel'; cases hsel'
  · intro v hexit
    obtain ⟨v', hv', h0, hm, hmsg⟩ := run_exit_error _ _ _ _ _ _ _ _ hexit
    have hvv : v = v' := notMatchingMessage_injective _ _ hmsg
    subst hvv
    exact ⟨hv', h0, hm⟩

theorem run_unknown_version_witness :
    (run (lit "feature-x") 0 sampleFiles (lit "en-US") (fun _ => true) allAnswered
      { sampleSpace with
        entries := [{ id := 7, version := some [(lit "en-US", lit "09-gone")], published := true }] }).exit
      = some (.error (lit "Version 09-gone is not matching with any known migration")) ∧
    (run (lit "feature-x") 0 sampleFiles (lit "en-US") (fun _ => true) allAnswered
      { sampleSpace with
        entries := [{ id := 7, version := some [(lit "en-US", lit "09-gone")], published := true }] }).log
      = [] :=
  ⟨((run_unknown_version (lit "feature-x") 0 sampleFiles (lit "en-US") (fun _ => true) allAnswered
      { sampleSpace with
        entries := [{ id := 7, version := some [(lit "en-US", lit "09-gone")], published := true }] }).1
      (lit "09-gone") rfl (by decide) (by decide)).1, by decide⟩

/-- C3 (the code at a query that returns two entries). The error `There should
only be one entry of type 'versionTracking'` is thrown inside the `try` whose
`catch` only warns: the run goes on from version `"0"`, runs the migration,
creates a third entry and ends with "All done!"; and no run at all ends with
that error. -/
theorem run_two_entries_goes_on :
    (run (lit "feature-x") 0 [lit "01-setup.js"] (lit "en-US") (fun _ => true) allAnswered
      twoEntrySpace).exit = none ∧
    (run (lit "feature-x") 0 [lit "01-setup.js"] (lit "en-US") (fun _ => true) allAnswered
      twoEntrySpace).log =
      [ .warn (lit "Could not find versionTracking entry or content type. Assuming initial state if intentional."),
        .warn (lit "There should only be one entry of type 'versionTracking'"),
        .runMigration (lit "01-setup.js"),
        .migrationSucceeded (lit "01-setup"),
        .entryCreated 3 (lit "01-setup"),
        .entryPublished 3 ] ∧
    (∀ (input : JSString) (now : Int) (files : List JSString) (defaultLocale : JSString)
        (runMigration : Nat → Bool) (answers : Answers) (space : Space),
      (run input now files defaultLocale runMigration answers space).exit ≠
        some (.error (lit "There should only be one entry of type 'versionTracking'"))) := by
  refine ⟨by decide, by decide, ?_⟩
  intro input now files defaultLocale runMigration answers space hexit
  obtain ⟨v, -, -, -, hmsg⟩ := run_exit_error _ _ _ _ _ _ _ _ hexit
  have h := congrArg List.head? hmsg
  simp [notMatchingMessage, lit] at h

/-- C4 (the code at a query that returns two entries). With two entries in the
space the first successful migration creates a third entry instead of updating
one; the two entries keep their version, and after the completed run the
version a run reads from the space is `"0"`, not the last migration. -/
theorem run_two_entries_creates_third :
    (run (lit "feature-x") 0 [lit "01-setup.js", lit "02-model.js"] (lit "en-US") (fun _ => true) allAnswered
      twoEntrySpace).exit = none ∧
    (run (lit "feature-x") 0 [lit "01-setup.js", lit "02-model.js"] (lit "en-US") (fun _ => true) allAnswered
      twoEntrySpace).log =
      [ .warn (lit "Could not find versionTracking entry or content type. Assuming initial state if intentional."),
        .warn (lit "There should only be one entry of type 'versionTracking'"),
        .runMigration (lit "01-setup.js"),
        .migrationSucceeded (lit "01-setup"),
        .entryCreated 3 (lit "01-setup"),
        .entryPublished 3,
        .runMigration (lit "02-model.js"),
        .migrationSucceeded (lit "02-model"),
        .entryUpdated 3 (lit "02-model"),
        .entryPublished 3 ] ∧
    (run (lit "feature-x") 0 [lit "01-setup.js", lit "02-model.js"] (lit "en-US") (fun _ => true) allAnswered
      twoEntrySpace).space.entries =
      [ { id := 1, version := some [(lit "en-US", lit "01-setup")], published := true },
        { id := 2, version := some [(lit "en-US", lit "01-setup")], published := true },
        { id := 3, version := some [(lit "en-US", lit "02-model")], published := true } ] ∧
    storedVersion (run (lit "feature-x") 0 [lit "01-setup.js", lit "02-model.js"] (lit "en-US")
      (fun _ => true) allAnswered twoEntrySpace).space (lit "en-US") = .ok (lit "0") ∧
    (sortWith sortCompare (availableMigrations [lit "01-setup.js", lit "02-model.js"])).getLast? =
      some (lit "02-model") := by
  refine ⟨by decide, by decide, by decide, rfl, by decide⟩

theorem promote_of_not_alias (answers : Answers) (input envId : JSString) (st : RunState)
    (h : isAliasBranch input = false) : promote answers input envId st = st := by
  simp [promote, h]

/-- The promotion on one of the four inputs. Either the alias calls return:
then the alias is set and a leading part of the environments to delete is
deleted, all of them when the listing and every deletion return. Or an alias
call is rejected: then the error is logged and nothing else happens. -/
theorem promote_spec (answers : Answers) (input envId : JSString) (st : RunState)
    (hal : isAliasBranch input = true) :
    ∃ deleted remaining : List Environment,
      (envsToDelete input st.space.environments).filter (fun env => decide (env.id ≠ envId)) =
        deleted ++ remaining ∧
      (promote answers input envId st).space.environments =
        st.space.environments.filter (fun e => deleted.all (fun d => decide (e.id ≠ d.id))) ∧
      (promote answers input envId st).space.entries = st.space.entries ∧
      ((answers.getEnvironmentAlias = true ∧ (st.space.aliases input).isSome = true ∧
          answers.aliasUpdate = true) →
        (promote answers input envId st).space.aliases =
          Function.update st.space.aliases input (some envId) ∧
        ∃ tail, (promote answers input envId st).log =
            st.log ++ Event.aliasUpdated input envId ::
              (deleted.map (fun env => Event.environmentDeleted env.id) ++ tail) ∧
          (tail = [] ∨ tail = [Event.errorLogged cleanupErrorMessage]) ∧
          ((answers.getEnvironments = true ∧ ∀ i, answers.delete i = true) →
            remaining = [] ∧ tail = [])) ∧
      (¬ (answers.getEnvironmentAlias = true ∧ (st.space.aliases input).isSome = true ∧
          answers.aliasUpdate = true) →
        deleted = [] ∧
        (promote answers input envId st).log = st.log ++ [Event.errorLogged cleanupErrorMessage] ∧
        (promote answers input envId st).space.aliases = st.space.aliases) := by
  by_cases hok : answers.getEnvironmentAlias = true ∧ (st.space.aliases input).isSome = true ∧
      answers.aliasUpdate = true
  · obtain ⟨h1, h2, h3⟩ := hok
    by_cases hg : answers.getEnvironments = true
    · obtain ⟨deleted, remaining, hsplit, hall, hlog, henv, hali, hent⟩ :=
        deleteLoop_spec answers.delete envId (envsToDelete input st.space.environments) 0
          { st with
            space := { st.space with
              aliases := Function.update st.space.aliases input (some envId) },
            log := st.log ++ [.aliasUpdated input envId] }
      have hp : promote answers input envId st =
          deleteLoop answers.delete envId (envsToDelete input st.space.environments) 0
            { st with
              space := { st.space with
                aliases := Function.update st.space.aliases input (some envId) },
              log := st.log ++ [.aliasUpdated input envId] } := by
        simp [promote, hal, h1, h2, h3, hg]
      rw [hp]
      refine ⟨deleted, remaining, hsplit, henv, hent, ?_, ?_⟩
      · intro _
        refine ⟨hali, if remaining = [] then [] else [Event.errorLogged cleanupErrorMessage],
          ?_, ?_, ?_⟩
        · rw [hlog]
          simp
        · by_cases hr : remaining = []
          · left; simp [hr]
          · right; simp [hr]
        · rintro ⟨-, hdel⟩
          have hr := hall hdel
          exact ⟨hr, by simp [hr]⟩
      · intro hn
        exact absurd ⟨h1, h2, h3⟩ hn
    · have hg' : answers.getEnvironments = false := by simpa using hg
      have hp : promote answers input envId st =
          ({ st with
              space := { st.space with
                aliases := Function.update st.space.aliases input (some envId) },
              log := st.log ++ [.aliasUpdated input envId] } : RunState).emit
            (.errorLogged cleanupErrorMessage) := by
        simp [promote, hal, h1, h2, h3, hg']
      rw [hp]
      refine ⟨[], (envsToDelete input st.space.environments).filter
        (fun env => decide (env.id ≠ envId)), rfl, by simp [RunState.emit], rfl, ?_, ?_⟩
      · intro _
        refine ⟨rfl, [Event.errorLogged cleanupErrorMessage], by simp [RunState.emit],
          Or.inr rfl, ?_⟩
        rintro ⟨hg2, -⟩
        exact absurd hg2 hg
      · intro hn
        exact absurd ⟨h1, h2, h3⟩ hn
  · have hp : promote answers input envId st = st.emit (.errorLogged cleanupErrorMessage) := by
      simp only [promote, if_pos hal]
      by_cases h12 : (answers.getEnvironmentAlias && (st.space.aliases input).isSome) = true
      · rw [if_pos h12]
        by_cases h3 : answers.aliasUpdate = true
        · rw [Bool.and_eq_true] at h12
          exact absurd ⟨h12.1, h12.2, h3⟩ hok
        · rw [if_neg h3]
      · rw [if_neg h12]
    rw [hp]
    refine ⟨[], (envsToDelete input st.space.environments).filter
      (fun env => decide (env.id ≠ envId)), rfl, by simp [RunState.emit], rfl, ?_, ?_⟩
    · intro h
      exact absurd h hok
    · intro _
      exact ⟨rfl, rfl, rfl⟩

theorem promote_entries (answers : Answers) (input envId : JSString) (st : RunState) :
    (promote answers input envId st).space.entries = st.space.entries := by
  by_cases h : isAliasBranch input = true
  · obtain ⟨_, _, -, -, h3, -, -⟩ := promote_spec answers input envId st h
    exact h3
  · rw [promote_of_not_alias answers input envId st (by simpa using h)]

/-- C7 as stated fails where an alias call is rejected: on `main`, when
`getEnvironmentAlias` is rejected, the run gets to the promotion step and ends
with "All done!", but the error is only logged: the alias `main` still points
at `main-c`, not at `ENVIRONMENT_ID`, and no alias update is in the log. -/
theorem run_alias_call_rejected :
    (run (lit "main") 1793924745123 sampleFiles (lit "en-US") (fun _ => true)
      { allAnswered with getEnvironmentAlias := false } sampleSpace).exit = none ∧
    (run (lit "main") 1793924745123 sampleFiles (lit "en-US") (fun _ => true)
      { allAnswered with getEnvironmentAlias := false } sampleSpace).space.aliases (lit "main") =
      some (lit "main-c") ∧
    ENVIRONMENT_ID (lit "main") 1793924745123 = lit "main-2026-11-06-0025" ∧
    (run (lit "main") 1793924745123 sampleFiles (lit "en-US") (fun _ => true)
      { allAnswered with getEnvironmentAlias := false } sampleSpace).log =
      [ .runMigration (lit "02-create-content-model.js"),
        .migrationSucceeded (lit "02-create-content-model"),
        .entryUpdated 7 (lit "02-create-content-model"),
        .entryPublished 7,
        .runMigration (lit "03_x.js"),
        .migrationSucceeded (lit "03.x"),
        .entryUpdated 7 (lit "03.x"),
        .entryPublished 7,
        .errorLogged (lit "Error updating alias or cleaning up:") ] := by
  refine ⟨by decide, by decide, by decide, by decide⟩

/-- C7, amended. A run on an input other than `master`, `main`, `staging`, `qa`
updates no alias and deletes no environment. On one of those four inputs a run
that gets to the promotion step (it ends without error) and whose alias calls
return (`getEnvironmentAlias` on an alias that exists, and `update`) has set
the alias named like the input to `ENVIRONMENT_ID` and left the other aliases
alone; when an alias call is rejected the error is logged, and no alias is
updated and no environment deleted. Whenever an alias update is in the log of
a run, it is that one, every call of `runMigration` for a selected migration
returned, the success of every selected migration is logged before it, nothing
was promoted or deleted before it, and only deletions of environments and the
logged error of a rejected call follow it. -/
theorem run_alias_promotion (input : JSString) (now : Int) (files : List JSString)
    (defaultLocale : JSString) (runMigration : Nat → Bool) (answers : Answers) (space : Space) :
    ((input ≠ lit "master" ∧ input ≠ lit "main" ∧ input ≠ lit "staging" ∧ input ≠ lit "qa") →
      (∀ e ∈ (run input now files defaultLocale runMigration answers space).log,
        e.isPromotion = false) ∧
      (run input now files defaultLocale runMigration answers space).space.aliases =
        space.aliases ∧
      (run input now files defaultLocale runMigration answers space).space.environments =
        space.environments) ∧
    ((input = lit "master" ∨ input = lit "main" ∨ input = lit "staging" ∨ input = lit "qa") →
      (run input now files defaultLocale runMigration answers space).exit = none →
      (answers.getEnvironmentAlias = true ∧ (space.aliases input).isSome = true ∧
        answers.aliasUpdate = true) →
      Event.aliasUpdated input (ENVIRONMENT_ID input now) ∈
        (run input now files defaultLocale runMigration answers space).log ∧
      (run input now files defaultLocale runMigration answers space).space.aliases input =
        some (ENVIRONMENT_ID input now) ∧
      ∀ other, other ≠ input →
        (run input now files defaultLocale runMigration answers space).space.aliases other =
          space.aliases other) ∧
    ((input = lit "master" ∨ input = lit "main" ∨ input = lit "staging" ∨ input = lit "qa") →
      (run input now files defaultLocale runMigration answers space).exit = none →
      ¬ (answers.getEnvironmentAlias = true ∧ (space.aliases input).isSome = true ∧
        answers.aliasUpdate = true) →
      Event.errorLogged cleanupErrorMessage ∈
        (run input now files defaultLocale runMigration answers space).log ∧
      (∀ e ∈ (run input now files defaultLocale runMigration answers space).log,
        e.isPromotion = false) ∧
      (run input now files defaultLocale runMigration answers space).space.aliases =
        space.aliases ∧
      (run input now files defaultLocale runMigration answers space).space.environments =
        space.environments) ∧
    (∀ a target,
      Event.aliasUpdated a target ∈
        (run input now files defaultLocale runMigration answers space).log →
      a = input ∧ target = ENVIRONMENT_ID input now ∧
      (run input now files defaultLocale runMigration answers space).exit = none ∧
      ∃ v selected before after,
        storedVersion space defaultLocale = .ok v ∧
        migrationsToRun (availableMigrations files) v = .ok selected ∧
        (∀ i, i < selected.length → runMigration i = true) ∧
        (run input now files defaultLocale runMigration answers space).log =
          before ++ Event.aliasUpdated a target :: after ∧
        (∀ m ∈ selected, Event.migrationSucceeded m ∈ before) ∧
        (∀ e ∈ before, e.isPromotion = false) ∧
        (∀ e ∈ after, (∃ id, e = Event.environmentDeleted id) ∨
          e = Event.errorLogged cleanupErrorMessage)) := by
  have hframe := fun selected => migrationLoop_frame runMigration defaultLocale selected 0
    { space := space, storedVersionEntry := (lookupStoredVersionEntry space.entries).1,
      log := (lookupStoredVersionEntry space.entries).2 }
  have hwarn := lookupStoredVersionEntry_log space.entries
  have hbefore : ∀ selected, ∀ e ∈ (migrationLoop runMigration defaultLocale selected 0
      { space := space, storedVersionEntry := (lookupStoredVersionEntry space.entries).1,
        log := (lookupStoredVersionEntry space.entries).2 }).1.log, e.isPromotion = false := by
    intro selected e he
    obtain ⟨⟨added, hlog, hprom, -, -⟩, -, -, -, -⟩ := hframe selected
    simp only [hlog, List.mem_append] at he
    rcases he with he | he
    · exact (hwarn e he).1
    · exact hprom e he
  refine ⟨?_, ?_, ?_, ?_⟩
  · rintro ⟨h1, h2, h3, h4⟩
    have hal : isAliasBranch input = false := by
      rw [← Bool.not_eq_true, isAliasBranch_iff]
      simp [h1, h2, h3, h4]
    rcases run_cases input now files defaultLocale runMigration answers space with
      ⟨err, -, hrun⟩ | ⟨v, err, -, -, hrun⟩ | ⟨v, selected, err, -, -, -, hrun⟩ |
      ⟨v, selected, -, -, -, hrun⟩
    · rw [hrun]
      exact ⟨fun e he => (hwarn e he).1, rfl, rfl⟩
    · rw [hrun]
      exact ⟨fun e he => (hwarn e he).1, rfl, rfl⟩
    · rw [hrun]
      obtain ⟨-, hali, henv, -, -⟩ := hframe selected
      exact ⟨hbefore selected, hali, henv⟩
    · rw [hrun, promote_of_not_alias _ _ _ _ hal]
      obtain ⟨-, hali, henv, -, -⟩ := hframe selected
      exact ⟨hbefore selected, hali, henv⟩
  · intro hin hexit hok
    have hal : isAliasBranch input = true := (isAliasBranch_iff input).2 hin
    rcases run_cases input now files defaultLocale runMigration answers space with
      ⟨err, -, hrun⟩ | ⟨v, err, -, -, hrun⟩ | ⟨v, selected, err, -, -, -, hrun⟩ |
      ⟨v, selected, -, -, -, hrun⟩
    · rw [hrun] at hexit; cases hexit
    · rw [hrun] at hexit; cases hexit
    · rw [hrun] at hexit; cases hexit
    · rw [hrun]
      obtain ⟨-, hali0, -, -, -⟩ := hframe selected
      obtain ⟨deleted, remaining, -, -, -, hyes, -⟩ := promote_spec answers input
        (ENVIRONMENT_ID input now)
        (migrationLoop runMigration defaultLocale selected 0
          { space := space, storedVersionEntry := (lookupStoredVersionEntry space.entries).1,
            log := (lookupStoredVersionEntry space.entries).2 }).1 hal
      obtain ⟨hali, tail, hlog, -, -⟩ := hyes (by rw [hali0]; exact hok)
      refine ⟨?_, ?_, ?_⟩
      · simp only [hlog]
        simp
      · simp only [hali]
        simp
      · intro other hother
        simp only [hali, hali0]
        simp [Function.update, hother]
  · intro hin hexit hnok
    have hal : isAliasBranch input = true := (isAliasBranch_iff input).2 hin
    rcases run_cases input now files defaultLocale runMigration answers space with
      ⟨err, -, hrun⟩ | ⟨v, err, -, -, hrun⟩ | ⟨v, selected, err, -, -, -, hrun⟩ |
      ⟨v, selected, -, -, -, hrun⟩
    · rw [hrun] at hexit; cases hexit
    · rw [hrun] at hexit; cases hexit
    · rw [hrun] at hexit; cases hexit
    · rw [hrun]
      obtain ⟨-, hali0, henv0, -, -⟩ := hframe selected
      obtain ⟨deleted, remaining, -, henv, -, -, hno⟩ := promote_spec answers input
        (ENVIRONMENT_ID input now)
        (migrationLoop runMigration defaultLocale selected 0
          { space := space, storedVersionEntry := (lookupStoredVersionEntry space.entries).1,
            log := (lookupStoredVersionEntry space.entries).2 }).1 hal
      obtain ⟨hdel, hlog, hali⟩ := hno (by rw [hali0]; exact hnok)
      refine ⟨?_, ?_, ?_, ?_⟩
      · simp only [hlog]
        simp
      · intro e he
        simp only [hlog, List.mem_append, List.mem_singleton] at he
        rcases he with he | rfl
        · exact hbefore selected e he
        · rfl
      · simp only [hali, hali0]
      · simp only [henv, hdel, henv0]
        simp
  · intro a target hmem
    rcases run_cases input now files defaultLocale runMigration answers space with
      ⟨err, -, hrun⟩ | ⟨v, err, -, -, hrun⟩ | ⟨v, selected, err, -, -, -, hrun⟩ |
      ⟨v, selected, hv, hsel, hnone, hrun⟩
    · rw [hrun] at hmem
      have := (hwarn _ hmem).1
      simp [Event.isPromotion] at this
    · rw [hrun] at hmem
      have := (hwarn _ hmem).1
      simp [Event.isPromotion] at this
    · rw [hrun] at hmem
      have := hbefore selected _ hmem
      simp [Event.isPromotion] at this
    · obtain ⟨⟨added, hlog, hprom, hsucc, -⟩, -, -, -, horacle⟩ := hframe selected
      by_cases hal : isAliasBranch input = true
      · obtain ⟨deleted, remaining, -, -, -, hyes, hno⟩ := promote_spec answers input
          (ENVIRONMENT_ID input now)
          (migrationLoop runMigration defaultLocale selected 0
            { space := space, storedVersionEntry := (lookupStoredVersionEntry space.entries).1,
              log := (lookupStoredVersionEntry space.entries).2 }).1 hal
        by_cases hok : answers.getEnvironmentAlias = true ∧
            ((migrationLoop runMigration defaultLocale selected 0
              { space := space, storedVersionEntry := (lookupStoredVersionEntry space.entries).1,
                log := (lookupStoredVersionEntry space.entries).2 }).1.space.aliases
                  input).isSome = true ∧
            answers.aliasUpdate = true
        · obtain ⟨-, tail, hplog, htail, -⟩ := hyes hok
          rw [hrun] at hmem ⊢
          simp only [hplog, List.mem_append, List.mem_cons, List.mem_map] at hmem
          rcases hmem with he | he | ⟨env, -, he⟩ | he
          · have := hbefore selected _ he
            simp [Event.isPromotion] at this
          · simp only [Event.aliasUpdated.injEq] at he
            obtain ⟨rfl, rfl⟩ := he
            refine ⟨rfl, rfl, rfl, v, selected, _, _, hv, hsel, ?_, hplog, ?_, hbefore selected, ?_⟩
            · intro i hi
              simpa using horacle hnone i hi
            · intro m hm
              rw [hlog]
              exact List.mem_append_right _ (hsucc hnone m hm)
            · intro e he
              simp only [List.mem_append, List.mem_map] at he
              rcases he with ⟨env, -, rfl⟩ | he
              · exact Or.inl ⟨_, rfl⟩
              · rcases htail with rfl | rfl
                · simp at he
                · simp only [List.mem_singleton] at he
                  exact Or.inr he
          · cases he
          · rcases htail with rfl | rfl
            · simp at he
            · simp only [List.mem_singleton] at he
              cases he
        · obtain ⟨-, hplog, -⟩ := hno hok
          rw [hrun] at hmem
          simp only [hplog, List.mem_append, List.mem_singleton] at hmem
          rcases hmem with he | he
          · have := hbefore selected _ he
            simp [Event.isPromotion] at this
          · cases he
      · have hal : isAliasBranch input = false := by simpa using hal
        rw [hrun, promote_of_not_alias _ _ _ _ hal] at hmem
        have := hbefore selected _ hmem
        simp [Event.isPromotion] at this

theorem run_alias_promotion_witness :
    (run (lit "main") 1793924745123 sampleFiles (lit "en-US") (fun _ => true) allAnswered
      sampleSpace).space.aliases (lit "main") = some (lit "main-2026-11-06-0025") ∧
    (run (lit "main") 1793924745123 sampleFiles (lit "en-US") (fun _ => true) allAnswered
      sampleSpace).log =
      [ .runMigration (lit "02-create-content-model.js"),
        .migrationSucceeded (lit "02-create-content-model"),
        .entryUpdated 7 (lit "02-create-content-model"),
        .entryPublished 7,
        .runMigration (lit "03_x.js"),
        .migrationSucceeded (lit "03.x"),
        .entryUpdated 7 (lit "03.x"),
        .entryPublished 7,
        .aliasUpdated (lit "main") (lit "main-2026-11-06-0025"),
        .environmentDeleted (lit "main-b"),
        .environmentDeleted (lit "main-a"),
        .environmentDeleted (lit "main-e") ] ∧
    (run (lit "main") 1793924745123 sampleFiles (lit "en-US") (fun _ => true)
      { allAnswered with aliasUpdate := false } sampleSpace).space.aliases =
      sampleSpace.aliases ∧
    (∀ e ∈ (run (lit "feature-x") 1793924745123 sampleFiles (lit "en-US") (fun _ => true)
      allAnswered sampleSpace).log, e.isPromotion = false) :=
  ⟨((run_alias_promotion (lit "main") 1793924745123 sampleFiles (lit "en-US") (fun _ => true)
      allAnswered sampleSpace).2.1 (by decide) (by decide) (by decide)).2.1.trans (by decide),
   by decide,
   ((run_alias_promotion (lit "main") 1793924745123 sampleFiles (lit "en-US") (fun _ => true)
      { allAnswered with aliasUpdate := false } sampleSpace).2.2.1 (by decide) (by decide)
      (by decide)).2.2.1,
   ((run_alias_promotion (lit "feature-x") 1793924745123 sampleFiles (lit "en-US")
      (fun _ => true) allAnswered sampleSpace).1 (by decide)).1⟩

/-! ## The id of the target environment -/

theorem plusString_eq (s : JSString) (p : Padded) : plusString s p = s ++ plusString [] p := by
  cases p <;> simp [plusString]

theorem plusString_pad (n : Nat) (h : n < 60) : plusString [] (pad n) = twoDigits n := by
  interval_cases n <;> rfl

theorem getUTCHours_lt (t : Int) : getUTCHours t < 24 := by
  unfold getUTCHours
  omega

theorem getUTCMinutes_lt (t : Int) : getUTCMinutes t < 60 := by
  unfold getUTCMinutes
  omega

theorem monthFromTime_range (t : Int) : 1 ≤ monthFromTime t ∧ monthFromTime t ≤ 12 := by
  unfold monthFromTime civilFromDays
  simp only
  omega

theorem dateFromTime_range (t : Int) : 1 ≤ dateFromTime t ∧ dateFromTime t ≤ 31 := by
  unfold dateFromTime civilFromDays
  simp only
  omega

theorem yearString_length (y : Int) : 4 ≤ (yearString y).length := by
  unfold yearString
  split
  · simp [fourDigits]
  · split <;> simp [sixDigits, fourDigits, lit]

theorem getStringDate_eq (now : Int) :
    getStringDate now =
      (toISOString now).take 10 ++ lit "-" ++ twoDigits (getUTCHours now) ++
        twoDigits (getUTCMinutes now) := by
  unfold getStringDate
  rw [plusString_eq, plusString_eq _ (pad (getUTCHours now)),
    plusString_pad _ (getUTCMinutes_lt now),
    plusString_pad _ (lt_trans (getUTCHours_lt now) (by decide))]

theorem toISOString_take (now : Int) (h0 : 0 ≤ yearFromTime now) (h1 : yearFromTime now ≤ 9999) :
    (toISOString now).take 10 =
      fourDigits (yearFromTime now).toNat ++ lit "-" ++ twoDigits (monthFromTime now) ++
        lit "-" ++ twoDigits (dateFromTime now) := by
  unfold toISOString yearString
  rw [if_pos ⟨h0, h1⟩]
  simp [fourDigits, twoDigits, lit]

theorem getStringDate_length (now : Int) : (getStringDate now).length = 15 := by
  rw [getStringDate_eq]
  have h := yearString_length (yearFromTime now)
  have h10 : 10 ≤ (toISOString now).length := by
    unfold toISOString
    simp only [List.length_append]
    simp only [twoDigits, threeDigits, lit, List.length_cons, List.length_nil, List.length_map]
    omega
  simp only [List.length_append, List.length_take, twoDigits, lit, List.length_cons,
    List.length_nil, List.length_map]
  omega

/-- The calendar of the model at some known instants. -/
theorem toISOString_values :
    toISOString 0 = lit "1970-01-01T00:00:00.000Z" ∧
    toISOString 1793924745123 = lit "2026-11-06T00:25:45.123Z" ∧
    toISOString 951782400000 = lit "2000-02-29T00:00:00.000Z" ∧
    toISOString 1709251199999 = lit "2024-02-29T23:59:59.999Z" ∧
    toISOString 4102444800000 = lit "2100-01-01T00:00:00.000Z" ∧
    toISOString (-1) = lit "1969-12-31T23:59:59.999Z" ∧
    toISOString 253402300800000 = lit "+010000-01-01T00:00:00.000Z" ∧
    toISOString (-62198755200000) = lit "-000001-01-01T00:00:00.000Z" := by
  decide

/-- C5. For an input that is `master`, `main`, `staging` or `qa` the id of the
target environment is the input, a `-`, and the string of `getStringDate`;
for any other input it is the input. The string of `getStringDate` has 15
units: the first ten units of the ISO form of the UTC time, a `-`, and the UTC
hours and minutes with two digits each; for the years 0 to 9999 that is
`YYYY-MM-DD-HHMM`. -/
theorem ENVIRONMENT_ID_spec (input : JSString) (now : Int) :
    ((input = lit "master" ∨ input = lit "main" ∨ input = lit "staging" ∨ input = lit "qa") →
      ENVIRONMENT_ID input now = input ++ lit "-" ++ getStringDate now) ∧
    (¬ (input = lit "master" ∨ input = lit "main" ∨ input = lit "staging" ∨ input = lit "qa") →
      ENVIRONMENT_ID input now = input) ∧
    (getStringDate now).length = 15 ∧
    getStringDate now =
      (toISOString now).take 10 ++ lit "-" ++ twoDigits (getUTCHours now) ++
        twoDigits (getUTCMinutes now) ∧
    getUTCHours now < 24 ∧ getUTCMinutes now < 60 ∧
    (1 ≤ monthFromTime now ∧ monthFromTime now ≤ 12) ∧
    (1 ≤ dateFromTime now ∧ dateFromTime now ≤ 31) ∧
    (0 ≤ yearFromTime now → yearFromTime now ≤ 9999 →
      getStringDate now =
        fourDigits (yearFromTime now).toNat ++ lit "-" ++ twoDigits (monthFromTime now) ++
          lit "-" ++ twoDigits (dateFromTime now) ++ lit "-" ++ twoDigits (getUTCHours now) ++
          twoDigits (getUTCMinutes now)) := by
  refine ⟨?_, ?_, getStringDate_length now, getStringDate_eq now, getUTCHours_lt now,
    getUTCMinutes_lt now, monthFromTime_range now, dateFromTime_range now, ?_⟩
  · intro h
    simp only [ENVIRONMENT_ID, if_pos ((isAliasBranch_iff input).2 h)]
  · intro h
    have : ¬ isAliasBranch input = true := fun h' => h ((isAliasBranch_iff input).1 h')
    simp only [ENVIRONMENT_ID, if_neg this]
  · intro h0 h1
    rw [getStringDate_eq, toISOString_take now h0 h1]

theorem ENVIRONMENT_ID_spec_witness :
    ENVIRONMENT_ID (lit "main") 1793924745123 = lit "main-2026-11-06-0025" ∧
    ENVIRONMENT_ID (lit "feature-x") 1793924745123 = lit "feature-x" ∧
    getStringDate 1793924745123 =
      fourDigits 2026 ++ lit "-" ++ twoDigits 11 ++ lit "-" ++ twoDigits 6 ++ lit "-" ++
        twoDigits 0 ++ twoDigits 25 :=
  ⟨((ENVIRONMENT_ID_spec (lit "main") 1793924745123).1 (by decide)).trans (by decide),
   (ENVIRONMENT_ID_spec (lit "feature-x") 1793924745123).2.1 (by decide),
   (ENVIRONMENT_ID_spec (lit "main") 1793924745123).2.2.2.2.2.2.2.2 (by decide) (by decide)⟩

/-! ## The clean-up of old environments -/

theorem ranksBefore_irrefl (p : Nat × Environment) : ranksBefore p p = false := by
  simp [ranksBefore]

theorem ranksBefore_asymm (p q : Nat × Environment) (h : ranksBefore p q = true) :
    ranksBefore q p = false := by
  simp only [ranksBefore, Bool.or_eq_true, Bool.and_eq_true, decide_eq_true_eq] at h
  simp only [ranksBefore, Bool.or_eq_false_iff, Bool.and_eq_false_imp, decide_eq_false_iff_not,
    decide_eq_true_eq]
  omega

theorem orderedInsert_ranked (a : Nat × Environment) (T : List (Nat × Environment))
    (hT : T.Pairwise (fun x y => ranksBefore x y = true)) (ha : ∀ x ∈ T, a.1 < x.1) :
    (List.orderedInsert (fun x y : Nat × Environment => y.2.createdAt - x.2.createdAt ≤ 0)
      a T).Pairwise (fun x y => ranksBefore x y = true) := by
  induction T with
  | nil => simp
  | cons b T ih =>
    rw [List.pairwise_cons] at hT
    obtain ⟨hb, hT⟩ := hT
    have hab : a.1 < b.1 := ha b (List.mem_cons_self _ _)
    have haT : ∀ x ∈ T, a.1 < x.1 := fun x hx => ha x (List.mem_cons_of_mem _ hx)
    simp only [List.orderedInsert]
    split
    · rename_i hle
      rw [List.pairwise_cons]
      refine ⟨?_, List.pairwise_cons.2 ⟨hb, hT⟩⟩
      intro x hx
      rcases List.mem_cons.1 hx with rfl | hx
      · simp only [ranksBefore, Bool.or_eq_true, Bool.and_eq_true, decide_eq_true_eq]
        omega
      · have h1 := hb x hx
        have h2 := haT x hx
        simp only [ranksBefore, Bool.or_eq_true, Bool.and_eq_true, decide_eq_true_eq] at h1 ⊢
        omega
    · rename_i hle
      rw [List.pairwise_cons]
      refine ⟨?_, ih hT haT⟩
      intro x hx
      rcases (List.mem_orderedInsert _).1 hx with rfl | hx
      · simp only [ranksBefore, Bool.or_eq_true, Bool.and_eq_true, decide_eq_true_eq]
        omega
      · exact hb x hx

/-- A stable sort, newest first, of a list whose positions increase ranks it. -/
theorem sortWith_ranked (E : List (Nat × Environment))
    (hE : E.Pairwise (fun x y => x.1 < y.1)) :
    (sortWith (fun a b : Nat × Environment => b.2.createdAt - a.2.createdAt) E).Pairwise
      (fun x y => ranksBefore x y = true) := by
  unfold sortWith
  induction E with
  | nil => simp
  | cons a E ih =>
    rw [List.pairwise_cons] at hE
    simp only [List.insertionSort]
    apply orderedInsert_ranked a _ (ih hE.2)
    intro x hx
    exact hE.1 x ((List.mem_insertionSort _).1 hx)

/-- In a ranked list, what is left after dropping `k` elements is what has at
least `k` elements ranked before it. -/
theorem mem_drop_ranked (S : List (Nat × Environment))
    (hS : S.Pairwise (fun x y => ranksBefore x y = true)) (k : Nat) (x : Nat × Environment) :
    x ∈ S.drop k ↔ x ∈ S ∧ k ≤ (S.filter (fun y => ranksBefore y x)).length := by
  induction S generalizing k with
  | nil => simp
  | cons a S ih =>
    rw [List.pairwise_cons] at hS
    obtain ⟨ha, hS⟩ := hS
    cases k with
    | zero => simp
    | succ k =>
      rw [List.drop_succ_cons, ih hS k]
      by_cases hxa : x = a
      · subst hxa
        constructor
        · rintro ⟨hx, -⟩
          have := ha x hx
          rw [ranksBefore_irrefl] at this
          cases this
        · rintro ⟨-, hk⟩
          have hnone : S.filter (fun y => ranksBefore y x) = [] := by
            rw [List.filter_eq_nil_iff]
            intro y hy
            rw [ranksBefore_asymm x y (ha y hy)]
            simp
          rw [List.filter_cons, ranksBefore_irrefl, hnone] at hk
          simp at hk
      · constructor
        · rintro ⟨hx, hk⟩
          refine ⟨List.mem_cons_of_mem _ hx, ?_⟩
          rw [List.filter_cons, ha x hx]
          simp only [if_true, List.length_cons]
          omega
        · rintro ⟨hx, hk⟩
          have hx' : x ∈ S := by
            rcases List.mem_cons.1 hx with h | h
            · exact absurd h hxa
            · exact h
          refine ⟨hx', ?_⟩
          rw [List.filter_cons, ha x hx'] at hk
          simp only [if_true, List.length_cons] at hk
          omega

theorem enum_pairwise_fst {α : Type} (l : List α) : l.enum.Pairwise (fun x y => x.1 < y.1) := by
  have h := List.pairwise_lt_range l.length
  rw [← List.enum_map_fst l, List.pairwise_map] at h
  exact h

theorem pairwise_ranked_nodup (S : List (Nat × Environment))
    (hS : S.Pairwise (fun x y => ranksBefore x y = true)) : S.Nodup := by
  unfold List.Nodup
  refine hS.imp ?_
  intro a b hab heq
  subst heq
  rw [ranksBefore_irrefl] at hab
  cases hab

/-- The list the loop of lines 286-291 deletes is, up to its order, the list
of the specification. -/
theorem envsToDelete_perm_staleEnvironments (input envId : JSString)
    (allEnvs : List Environment) :
    ((envsToDelete input allEnvs).filter (fun env => decide (env.id ≠ envId))).Perm
      (staleEnvironments input envId allEnvs) := by
  set M := allEnvs.filter (fun e => startsWith e.name (input ++ lit "-")) with hM
  set E := M.enum with hEdef
  set S := sortWith (fun a b : Nat × Environment => b.2.createdAt - a.2.createdAt) E with hSdef
  have hSrank : S.Pairwise (fun x y => ranksBefore x y = true) :=
    sortWith_ranked E (enum_pairwise_fst M)
  have hSperm : S.Perm E := sortWith_perm _ E
  have hmap : matchingEnvs input allEnvs = S.map Prod.snd := by
    unfold matchingEnvs
    rw [← hM]
    have h := List.map_insertionSort
      (fun x y : Nat × Environment => y.2.createdAt - x.2.createdAt ≤ 0)
      (fun x y : Environment => y.createdAt - x.createdAt ≤ 0) Prod.snd E
      (fun a _ b _ => Iff.rfl)
    rw [hEdef, List.enum_map_snd] at h
    rw [hSdef]
    exact h.symm
  have hdel : (envsToDelete input allEnvs).filter (fun env => decide (env.id ≠ envId)) =
      ((S.drop 3).filter (fun p => decide (p.2.id ≠ envId))).map Prod.snd := by
    unfold envsToDelete
    rw [hmap]
    have h3 : slice (S.map Prod.snd) KEEP_COUNT = (S.map Prod.snd).drop 3 := by
      simp [slice, KEEP_COUNT]
    rw [h3, ← List.map_drop, List.filter_map]
    rfl
  rw [hdel]
  unfold staleEnvironments
  simp only []
  rw [← hM, ← hEdef]
  apply List.Perm.map
  rw [List.perm_ext_iff_of_nodup]
  · intro x
    simp only [List.mem_filter, mem_drop_ranked S hSrank, Bool.and_eq_true, decide_eq_true_eq,
      hSperm.mem_iff, (hSperm.filter _).length_eq]
    tauto
  · exact ((pairwise_ranked_nodup S hSrank).sublist (List.drop_sublist _ _)).filter _
  · have hE : E.Nodup := (hSperm.nodup_iff).1 (pairwise_ranked_nodup S hSrank)
    exact hE.filter _

/-- C6 as stated fails where a call of the clean-up is rejected: on `main`,
when the second call of `env.delete()` is rejected, the run ends with
"All done!" having deleted `main-b` only, while the environments of the claim
(name start `main-`, not among the 3 newest, not the current one) are
`main-a`, `main-b` and `main-e`. -/
theorem run_delete_rejected :
    (run (lit "main") 1793924745123 sampleFiles (lit "en-US") (fun _ => true)
      { allAnswered with delete := fun k => decide (k = 0) } sampleSpace).exit = none ∧
    deletedIds (run (lit "main") 1793924745123 sampleFiles (lit "en-US") (fun _ => true)
      { allAnswered with delete := fun k => decide (k = 0) } sampleSpace).log =
      [lit "main-b"] ∧
    Event.errorLogged (lit "Error updating alias or cleaning up:") ∈
      (run (lit "main") 1793924745123 sampleFiles (lit "en-US") (fun _ => true)
        { allAnswered with delete := fun k => decide (k = 0) } sampleSpace).log ∧
    (staleEnvironments (lit "main") (ENVIRONMENT_ID (lit "main") 1793924745123)
      sampleSpace.environments).map (·.id) = [lit "main-a", lit "main-b", lit "main-e"] := by
  refine ⟨by decide, by decide, by decide, by decide⟩

/-- C6, amended. In the promotion of a run on `master`, `main`, `staging` or
`qa`, the environments deleted are a leading part, in the order of deletion,
of a list that is, up to order, the list of the specification: name starting
with `<ENVIRONMENT_INPUT>-`, at least 3 such environments ranked before it
(newest first, ties in listing order), id other than `ENVIRONMENT_ID`. When the
alias calls, the listing and every deletion return, they are exactly those, and
they are deleted after the alias update. In every case a deletion happens only
after the alias update, no deleted environment has the id `ENVIRONMENT_ID`,
each has the name start, nothing is deleted when at most 3 environments have
it, and an environment with the id `ENVIRONMENT_ID` stays in the space. -/
theorem promote_cleanup (answers : Answers) (input envId : JSString) (st : RunState)
    (h : input = lit "master" ∨ input = lit "main" ∨ input = lit "staging" ∨ input = lit "qa") :
    ∃ deleted remaining : List Environment,
      (deleted ++ remaining).Perm (staleEnvironments input envId st.space.environments) ∧
      deletedIds (promote answers input envId st).log =
        deletedIds st.log ++ deleted.map (·.id) ∧
      (promote answers input envId st).space.environments =
        st.space.environments.filter
          (fun e => deleted.all (fun d => decide (e.id ≠ d.id))) ∧
      ((answers.getEnvironmentAlias = true ∧ (st.space.aliases input).isSome = true ∧
          answers.aliasUpdate = true ∧ answers.getEnvironments = true ∧
          ∀ k, answers.delete k = true) →
        remaining = [] ∧
        (promote answers input envId st).log =
          st.log ++ Event.aliasUpdated input envId ::
            deleted.map (fun env => Event.environmentDeleted env.id)) ∧
      (deleted ≠ [] →
        ∃ after, (promote answers input envId st).log =
          st.log ++ Event.aliasUpdated input envId ::
            (deleted.map (fun env => Event.environmentDeleted env.id) ++ after)) ∧
      (∀ env ∈ deleted, env ∈ st.space.environments ∧
        startsWith env.name (input ++ lit "-") = true ∧ env.id ≠ envId) ∧
      ((st.space.environments.filter
          (fun e => startsWith e.name (input ++ lit "-"))).length ≤ 3 → deleted = []) ∧
      (∀ env ∈ st.space.environments, env.id = envId →
        env ∈ (promote answers input envId st).space.environments) := by
  have hal : isAliasBranch input = true := (isAliasBranch_iff input).2 h
  obtain ⟨deleted, remaining, hsplit, henv, -, hyes, hno⟩ := promote_spec answers input envId st hal
  have h3 : slice (matchingEnvs input st.space.environments) KEEP_COUNT =
      (matchingEnvs input st.space.environments).drop 3 := by
    simp [slice, KEEP_COUNT]
  have hmem : ∀ env ∈ deleted, env ∈ st.space.environments ∧
      startsWith env.name (input ++ lit "-") = true ∧ env.id ≠ envId := by
    intro env hd
    have henv' : env ∈ (envsToDelete input st.space.environments).filter
        (fun env => decide (env.id ≠ envId)) := by
      rw [hsplit]
      exact List.mem_append_left _ hd
    rw [List.mem_filter] at henv'
    obtain ⟨hm, hid⟩ := henv'
    unfold envsToDelete at hm
    rw [h3] at hm
    have hm := List.mem_of_mem_drop hm
    unfold matchingEnvs at hm
    rw [(sortWith_perm _ _).mem_iff, List.mem_filter] at hm
    exact ⟨hm.1, hm.2, by simpa using hid⟩
  refine ⟨deleted, remaining, ?_, ?_, henv, ?_, ?_, hmem, ?_, ?_⟩
  · rw [← hsplit]
    exact envsToDelete_perm_staleEnvironments input envId st.space.environments
  · by_cases hok : answers.getEnvironmentAlias = true ∧ (st.space.aliases input).isSome = true ∧
        answers.aliasUpdate = true
    · obtain ⟨-, tail, hlog, htail, -⟩ := hyes hok
      rw [hlog, deletedIds_append]
      have hrest : deletedIds (Event.aliasUpdated input envId ::
          (deleted.map (fun env => Event.environmentDeleted env.id) ++ tail)) =
          deleted.map (·.id) := by
        have h1 : deletedIds (Event.aliasUpdated input envId ::
            (deleted.map (fun env => Event.environmentDeleted env.id) ++ tail)) =
            deletedIds (deleted.map (fun env => Event.environmentDeleted env.id) ++ tail) := rfl
        rw [h1, deletedIds_append, deletedIds_map]
        rcases htail with rfl | rfl <;> simp [deletedIds]
      rw [hrest]
    · obtain ⟨hdel, hlog, -⟩ := hno hok
      rw [hlog, deletedIds_append, hdel]
      simp [deletedIds]
  · rintro ⟨h1, h2, h3', h4, h5⟩
    obtain ⟨-, tail, hlog, -, hall⟩ := hyes ⟨h1, h2, h3'⟩
    obtain ⟨hr, ht⟩ := hall ⟨h4, h5⟩
    refine ⟨hr, ?_⟩
    rw [hlog, ht, List.append_nil]
  · intro hne
    by_cases hok : answers.getEnvironmentAlias = true ∧ (st.space.aliases input).isSome = true ∧
        answers.aliasUpdate = true
    · obtain ⟨-, tail, hlog, -, -⟩ := hyes hok
      exact ⟨tail, hlog⟩
    · exact absurd (hno hok).1 hne
  · intro hlen
    have hl : (matchingEnvs input st.space.environments).length ≤ 3 := by
      unfold matchingEnvs
      rw [(sortWith_perm _ _).length_eq]
      exact hlen
    have hnil : (envsToDelete input st.space.environments).filter
        (fun env => decide (env.id ≠ envId)) = [] := by
      unfold envsToDelete
      rw [h3, List.drop_eq_nil_of_le hl]
      rfl
    rw [hsplit] at hnil
    exact (List.append_eq_nil.1 hnil).1
  · intro env henv' hid
    rw [henv, List.mem_filter]
    refine ⟨henv', ?_⟩
    rw [List.all_eq_true]
    intro d hd
    have hne : d.id ≠ envId := (hmem d hd).2.2
    rw [decide_eq_true_eq, hid]
    exact fun h' => hne h'.symm

theorem promote_cleanup_witness :
    (∃ deleted remaining : List Environment,
      (deleted ++ remaining).Perm
        (staleEnvironments (lit "main") (lit "main-2026-11-06-0025") sampleSpace.environments) ∧
      remaining = [] ∧
      (promote allAnswered (lit "main") (lit "main-2026-11-06-0025")
        { space := sampleSpace, storedVersionEntry := none, log := [] }).log =
        Event.aliasUpdated (lit "main") (lit "main-2026-11-06-0025") ::
          deleted.map (fun env => Event.environmentDeleted env.id)) ∧
    deletedIds (promote allAnswered (lit "main") (lit "main-2026-11-06-0025")
      { space := sampleSpace, storedVersionEntry := none, log := [] }).log =
      [lit "main-b", lit "main-a", lit "main-e"] :=
  ⟨(promote_cleanup allAnswered (lit "main") (lit "main-2026-11-06-0025")
      { space := sampleSpace, storedVersionEntry := none, log := [] } (by decide)).elim
      (fun deleted h => h.elim (fun remaining h =>
        ⟨deleted, remaining, h.1,
          (h.2.2.2.1 ⟨rfl, by decide, rfl, rfl, fun _ => rfl⟩).1,
          (h.2.2.2.1 ⟨rfl, by decide, rfl, rfl, fun _ => rfl⟩).2⟩)),
   by decide⟩

/-! ## Version tracking when the query returns at most one entry -/

theorem TracksVersion.tracked {defaultLocale version : JSString} {st : RunState}
    (h : TracksVersion defaultLocale version st) : Tracked st := by
  obtain ⟨entry, byLocale, h1, h2, h3, -, -⟩ := h
  exact Or.inr ⟨entry, byLocale, h1, h2, h3⟩

theorem lookup_setLocale (locale value : JSString) (byLocale : List (JSString × JSString)) :
    (setLocale locale value byLocale).lookup locale = some value := by
  simp [setLocale, List.lookup]

/-- One step of the tracking: the entry is created when the runner holds none,
updated otherwise, and published; afterwards it carries the migration. -/
theorem trackVersion_tracked (defaultLocale migrationFile : JSString) (st : RunState)
    (h : Tracked st) :
    ∃ st2, trackVersion defaultLocale migrationFile st = .ok st2 ∧
      TracksVersion defaultLocale migrationFile st2 ∧
      (st.storedVersionEntry = none →
        ∃ id, st2.log = st.log ++ [.entryCreated id migrationFile, .entryPublished id]) ∧
      (∀ entry, st.storedVersionEntry = some entry →
        st2.log = st.log ++ [.entryUpdated entry.id migrationFile, .entryPublished entry.id]) := by
  rcases h with ⟨hs, he⟩ | ⟨entry, byLocale, hs, he, hv⟩
  · refine ⟨_, by simp only [trackVersion, hs]; rfl, ?_, ?_, ?_⟩
    · refine ⟨_, _, rfl, ?_, rfl, ?_, rfl⟩
      · simp [RunState.publish, RunState.createEntry, he, putEntry]
      · simp [List.lookup]
    · intro _
      exact ⟨freshId st.space.entries, by simp [RunState.publish, RunState.createEntry]⟩
    · intro entry hentry
      rw [hs] at hentry
      cases hentry
  · refine ⟨_, by simp only [trackVersion, hs, hv]; rfl, ?_, ?_, ?_⟩
    · refine ⟨_, _, rfl, ?_, rfl, lookup_setLocale _ _ _, rfl⟩
      simp [RunState.publish, RunState.update, he, putEntry]
    · intro hnone
      rw [hs] at hnone
      cases hnone
    · intro entry' hentry
      rw [hs] at hentry
      cases hentry
      simp [RunState.publish, RunState.update]

theorem migrationLoop_append (runMigration : Nat → Bool) (defaultLocale : JSString)
    (xs ys : List JSString) (k : Nat) (st : RunState)
    (h : (migrationLoop runMigration defaultLocale xs k st).2 = none) :
    migrationLoop runMigration defaultLocale (xs ++ ys) k st =
      migrationLoop runMigration defaultLocale ys (k + xs.length)
        (migrationLoop runMigration defaultLocale xs k st).1 := by
  induction xs generalizing k st with
  | nil => simp [migrationLoop]
  | cons m rest ih =>
    simp only [migrationLoop, List.cons_append] at h ⊢
    by_cases hk : runMigration k = true
    · rw [if_pos hk] at h ⊢
      cases htv : trackVersion defaultLocale m
          ((st.emit (.runMigration (getFileOfVersion m))).emit (.migrationSucceeded m)) with
      | error err => rw [htv] at h; simp at h
      | ok st2 =>
        rw [htv] at h
        simp only at h ⊢
        rw [if_pos hk]
        have h2 := ih (k + 1) st2 h
        rw [show k + 1 + rest.length = k + (m :: rest).length by
          simp only [List.length_cons]; omega] at h2
        exact h2
    · rw [if_neg hk] at h
      simp at h

/-- The loop, when every call of `runMigration` returns: it ends without error
and the space tracks the last migration of the list. -/
theorem migrationLoop_tracked (runMigration : Nat → Bool) (defaultLocale : JSString)
    (selected : List JSString) (k : Nat) (st : RunState) (hT : Tracked st)
    (hok : ∀ i, i < selected.length → runMigration (k + i) = true) :
    (migrationLoop runMigration defaultLocale selected k st).2 = none ∧
    (∀ m, selected.getLast? = some m →
      TracksVersion defaultLocale m (migrationLoop runMigration defaultLocale selected k st).1) ∧
    (selected = [] → migrationLoop runMigration defaultLocale selected k st = (st, none)) := by
  induction selected generalizing k st with
  | nil => simp [migrationLoop]
  | cons m rest ih =>
    have hk : runMigration k = true := by simpa using hok 0 (by simp)
    have hT1 : Tracked ((st.emit (.runMigration (getFileOfVersion m))).emit
        (.migrationSucceeded m)) := hT
    obtain ⟨st2, htv, htr, -, -⟩ := trackVersion_tracked defaultLocale m _ hT1
    have hok2 : ∀ i, i < rest.length → runMigration (k + 1 + i) = true := by
      intro i hi
      have := hok (i + 1) (by simpa using hi)
      rw [show k + 1 + i = k + (i + 1) by omega]
      exact this
    obtain ⟨h1, h2, h3⟩ := ih (k + 1) st2 htr.tracked hok2
    simp only [migrationLoop, if_pos hk, htv]
    refine ⟨h1, ?_, by simp⟩
    intro last hlast
    cases rest with
    | nil =>
      simp only [List.getLast?_singleton, Option.some.injEq] at hlast
      subst hlast
      rw [h3 rfl]
      exact htr
    | cons r rest' =>
      rw [List.getLast?_cons_cons] at hlast
      exact h2 last hlast

/-- Immediately after a selected migration succeeds the space tracks it: when
the calls for `before` and for `m` return, the loop over `before ++ m :: after`
goes on over `after` from a state that tracks `m`. -/
theorem migrationLoop_tracks_each (runMigration : Nat → Bool) (defaultLocale : JSString)
    (before after : List JSString) (m : JSString) (st : RunState) (hT : Tracked st)
    (hok : ∀ i, i ≤ before.length → runMigration i = true) :
    migrationLoop runMigration defaultLocale (before ++ m :: after) 0 st =
      migrationLoop runMigration defaultLocale after (before.length + 1)
        (migrationLoop runMigration defaultLocale (before ++ [m]) 0 st).1 ∧
    TracksVersion defaultLocale m
      (migrationLoop runMigration defaultLocale (before ++ [m]) 0 st).1 := by
  have hok' : ∀ i, i < (before ++ [m]).length → runMigration (0 + i) = true := by
    intro i hi
    rw [Nat.zero_add]
    apply hok
    simp only [List.length_append, List.length_singleton] at hi
    omega
  obtain ⟨h1, h2, -⟩ := migrationLoop_tracked runMigration defaultLocale (before ++ [m]) 0 st hT hok'
  refine ⟨?_, h2 m (by simp)⟩
  have := migrationLoop_append runMigration defaultLocale (before ++ [m]) after 0 st h1
  simpa using this

theorem availableMigrations_ne_nil (files : List JSString) (v : JSString)
    (h : v ∈ availableMigrations files) : v ≠ [] := by
  simp only [availableMigrations, List.mem_map, List.mem_filter] at h
  obtain ⟨file, ⟨-, hf⟩, rfl⟩ := h
  have h1 := migrationFilter_length file hf
  have h2 := getVersionOfFile_length file
  intro h0
  rw [h0] at h2
  simp at h2
  omega

/-- What is selected is the end of the sorted list. -/
theorem migrationsToRun_suffix (available : List JSString) (v : JSString)
    (selected : List JSString) (h : migrationsToRun available v = .ok selected) :
    ∃ before, sortWith sortCompare available = before ++ selected := by
  by_cases h0 : v = lit "0"
  · subst h0
    rw [migrationsToRun_zero] at h
    cases h
    exact ⟨[], rfl⟩
  · by_cases hm : v ∈ available
    · obtain ⟨before, after, hsplit, -, hok⟩ := migrationsToRun_of_mem available v h0 hm
      rw [hok] at h
      cases h
      exact ⟨before ++ [v], by simp [hsplit]⟩
    · rw [migrationsToRun_of_not_mem available v h0 hm] at h
      cases h

theorem lookupStoredVersionEntry_tracked (space : Space) (defaultLocale v : JSString)
    (h1 : space.entries.length ≤ 1) (hv : storedVersion space defaultLocale = .ok v) :
    Tracked { space := space, storedVersionEntry := (lookupStoredVersionEntry space.entries).1,
              log := (lookupStoredVersionEntry space.entries).2 } := by
  unfold storedVersion at hv
  cases he : space.entries with
  | nil =>
    left
    exact ⟨by simp [he, lookupStoredVersionEntry, findStoredVersionEntry], he⟩
  | cons entry rest =>
    have hrest : rest = [] := by
      rw [he] at h1
      simp only [List.length_cons] at h1
      exact List.length_eq_zero.1 (by omega)
    subst hrest
    have hl : (lookupStoredVersionEntry [entry]).1 = some entry := by
      simp [lookupStoredVersionEntry, findStoredVersionEntry]
    rw [he, hl] at hv
    right
    cases hver : entry.version with
    | none => simp [currentVersionString, hver] at hv
    | some byLocale => exact ⟨entry, byLocale, hl, he, hver⟩

/-- The tracking of a run whose query returned at most one entry and that ends
without error: with nothing selected the entries are as they were; otherwise
the space has the one entry, published, at the last version of the sorted list,
and that is the version a run reads from the space afterwards. -/
theorem run_tracks_version (input : JSString) (now : Int) (files : List JSString)
    (defaultLocale : JSString) (runMigration : Nat → Bool) (answers : Answers) (space : Space)
    (h1 : space.entries.length ≤ 1)
    (hexit : (run input now files defaultLocale runMigration answers space).exit = none) :
    ∃ v selected, storedVersion space defaultLocale = .ok v ∧
      migrationsToRun (availableMigrations files) v = .ok selected ∧
      (selected = [] →
        (run input now files defaultLocale runMigration answers space).space.entries = space.entries) ∧
      (selected ≠ [] →
        ∃ last entry byLocale,
          (sortWith sortCompare (availableMigrations files)).getLast? = some last ∧
          (run input now files defaultLocale runMigration answers space).space.entries = [entry] ∧
          entry.version = some byLocale ∧ byLocale.lookup defaultLocale = some last ∧
          entry.published = true ∧
          storedVersion (run input now files defaultLocale runMigration answers space).space
            defaultLocale = .ok last) := by
  rcases run_cases input now files defaultLocale runMigration answers space with
    ⟨err, -, hrun⟩ | ⟨v, err, -, -, hrun⟩ | ⟨v, selected, err, -, -, -, hrun⟩ |
    ⟨v, selected, hv, hsel, hnone, hrun⟩
  · rw [hrun] at hexit; cases hexit
  · rw [hrun] at hexit; cases hexit
  · rw [hrun] at hexit; cases hexit
  · refine ⟨v, selected, hv, hsel, ?_, ?_⟩
    · intro hnil
      subst hnil
      rw [hrun]
      simp only [promote_entries]
      simp [migrationLoop]
    · intro hne
      have hT := lookupStoredVersionEntry_tracked space defaultLocale v h1 hv
      have horacle := (migrationLoop_frame runMigration defaultLocale selected 0
        { space := space, storedVersionEntry := (lookupStoredVersionEntry space.entries).1,
          log := (lookupStoredVersionEntry space.entries).2 }).2.2.2.2 hnone
      obtain ⟨-, htrack, -⟩ := migrationLoop_tracked runMigration defaultLocale selected 0 _ hT
        horacle
      obtain ⟨before, hsorted⟩ := migrationsToRun_suffix _ _ _ hsel
      obtain ⟨last, hlast⟩ : ∃ last, selected.getLast? = some last := by
        cases hl : selected.getLast? with
        | none => exact absurd (List.getLast?_eq_none_iff.1 hl) hne
        | some last => exact ⟨last, rfl⟩
      obtain ⟨entry, byLocale, -, hentries, hver, hlook, hpub⟩ := htrack last hlast
      have hmem : last ∈ availableMigrations files := by
        rw [← (sortWith_perm sortCompare (availableMigrations files)).mem_iff, hsorted]
        exact List.mem_append_right _ (List.mem_of_getLast?_eq_some hlast)
      have hnonempty := availableMigrations_ne_nil files last hmem
      have hfinal : (run input now files defaultLocale runMigration answers space).space.entries =
          [entry] := by
        rw [hrun]
        simp only [promote_entries]
        exact hentries
      refine ⟨last, entry, byLocale, ?_, hfinal, hver, hlook, hpub, ?_⟩
      · rw [hsorted, List.getLast?_append, hlast]
        rfl
      · unfold storedVersion
        rw [hfinal]
        simp [lookupStoredVersionEntry, findStoredVersionEntry, currentVersionString, hver, hlook,
          hnonempty]

theorem run_tracks_version_witness :
    ∃ entry byLocale,
      (run (lit "main") 1793924745123 sampleFiles (lit "en-US") (fun _ => true) allAnswered
        sampleSpace).space.entries = [entry] ∧
      entry.version = some byLocale ∧ byLocale.lookup (lit "en-US") = some (lit "03.x") ∧
      entry.published = true :=
  (run_tracks_version (lit "main") 1793924745123 sampleFiles (lit "en-US") (fun _ => true) allAnswered
    sampleSpace (by decide) (by decide)).elim
    (fun v h => h.elim (fun selected h =>
      have hsel : selected ≠ [] := by
        intro hnil
        have h2 := h.2.1
        rw [hnil] at h2
        have h3 : migrationsToRun (availableMigrations sampleFiles) v = .ok [] → False := by
          have hv : v = lit "01-setup" := by
            have := h.1
            have h4 : storedVersion sampleSpace (lit "en-US") = .ok (lit "01-setup") := rfl
            rw [h4] at this
            cases this
            rfl
          subst hv
          intro h5
          have h6 : migrationsToRun (availableMigrations sampleFiles) (lit "01-setup") =
              .ok [lit "02-create-content-model", lit "03.x"] := rfl
          rw [h6] at h5
          cases h5
        exact h3 h2
      (h.2.2.2 hsel).elim (fun last h => h.elim (fun entry h => h.elim (fun byLocale h =>
        have hlast : last = lit "03.x" := by
          have h7 : (sortWith sortCompare (availableMigrations sampleFiles)).getLast? =
              some (lit "03.x") := by decide
          have := h.1
          rw [h7] at this
          cases this
          rfl
        ⟨entry, byLocale, h.2.1, h.2.2.1, hlast ▸ h.2.2.2.1, h.2.2.2.2.1⟩)))))

end Migrate
